import Mathlib

/-!
Verification of the schema-preserving test-case variation engine of the
`ai-auto-test-cmd` repository (Go).  The Go sources are shallowly embedded:
pure functions become Lean functions, the package-level mutable variables of
`utils` become an explicit `GlobalState` threaded through the functions, and
the process-wide random number generator (`math/rand`) becomes an explicit
`Rng` value threaded through every randomized function.

Machine-level conventions of the embedding:
* Go strings are `List Char` (Go iterates them as runes after `[]rune(s)`
  conversions; byte lengths are recovered with `utf8Len`).
* Go `int`/`int64` are `Int`; all arithmetic that can overflow in Go stays
  far inside the 64-bit range at every call site used by a theorem.
* `float64` values that only pass through truncating conversions are modelled
  exactly; the places where this idealizes IEEE rounding are noted locally.
* A Go `panic` is modelled by an `Option`-valued function returning `none`.
-/

/-- Deterministic model of Go `math/rand`: an infinite stream of raw draws
together with a position.  Every randomized Go function consumes draws in
source order, so two runs with the same stream see the same values. -/
structure Rng where
  stream : Nat → Nat
  pos : Nat

/-- Draw the next raw value from the stream. -/
def Rng.next (r : Rng) : Nat × Rng :=
  (r.stream r.pos, ⟨r.stream, r.pos + 1⟩)

/-- Model of Go `rand.Intn n` for `n > 0`: a uniform draw in `[0, n)` is
modelled as the next raw draw reduced mod `n`.  Every embedded call site
passes a positive `n` (the Go sites guard this). -/
def randIntn (n : Nat) (r : Rng) : Nat × Rng :=
  let (v, r') := r.next
  (v % n, r')

/-- Model of Go `rand.Int63n n`, which panics when `n ≤ 0`; the panic is
modelled as `none`. -/
def randInt63n (n : Int) (r : Rng) : Option (Int × Rng) :=
  if n ≤ 0 then none
  else
    let (v, r') := r.next
    some ((v : Int) % n, r')

/-- Exact decimal fractions `m / 10^e`: the embedding's idealization of the
Go `float64` values that flow through the variation engine and the
constraint generators.  Every float literal, every `rand.Float64` draw and
every arithmetic result in the embedded code is an exact decimal, so the
idealization is exact precisely on the decimal data the theorems evaluate;
binary rounding of IEEE doubles is not modelled. -/
structure Dec where
  m : Int
  e : Nat
deriving DecidableEq

/-- The decimal with integer value `n`. -/
def Dec.ofInt (n : Int) : Dec := ⟨n, 0⟩

/-- Strip factors of ten (fuel-driven, structural). -/
def Dec.normAux : Nat → Int → Nat → Dec
  | 0, m, e => ⟨m, e⟩
  | _ + 1, m, 0 => ⟨m, 0⟩
  | fuel + 1, m, e + 1 =>
    if m % 10 = 0 ∧ m ≠ 0 then Dec.normAux fuel (m / 10) e else ⟨m, e + 1⟩

/-- Canonical representation: mantissa not divisible by ten (or zero). -/
def Dec.norm (d : Dec) : Dec :=
  if d.m = 0 then ⟨0, 0⟩ else Dec.normAux d.e d.m d.e

/-- Decimal multiplication. -/
def Dec.mul (a b : Dec) : Dec := Dec.norm ⟨a.m * b.m, a.e + b.e⟩

/-- Decimal negation. -/
def Dec.neg (a : Dec) : Dec := ⟨-a.m, a.e⟩

/-- Decimal addition. -/
def Dec.add (a b : Dec) : Dec :=
  let e := max a.e b.e
  Dec.norm ⟨a.m * 10 ^ (e - a.e) + b.m * 10 ^ (e - b.e), e⟩

/-- Decimal subtraction. -/
def Dec.sub (a b : Dec) : Dec := Dec.add a (Dec.neg b)

/-- Strict order on decimals (Go `<` on float64). -/
def Dec.blt (a b : Dec) : Bool := a.m * 10 ^ b.e < b.m * 10 ^ a.e

/-- Nonstrict order on decimals. -/
def Dec.ble (a b : Dec) : Bool := a.m * 10 ^ b.e ≤ b.m * 10 ^ a.e

/-- Semantic equality of decimals (Go `==` on float64). -/
def Dec.beqv (a b : Dec) : Bool := a.m * 10 ^ b.e == b.m * 10 ^ a.e

/-- Go `int64(x)`/`int(x)` on a float: truncation toward zero. -/
def Dec.trunc (d : Dec) : Int :=
  let q : Nat := d.m.natAbs / 10 ^ d.e
  if d.m < 0 then -(q : Int) else (q : Int)

/-- Go `math.Round`: round half away from zero, as an integer. -/
def Dec.roundAway (d : Dec) : Int :=
  let den : Nat := 10 ^ d.e
  let q : Nat := (d.m.natAbs + den / 2) / den
  if d.m < 0 then -(q : Int) else (q : Int)

/-- Go `math.Abs`. -/
def Dec.abs (d : Dec) : Dec := ⟨(d.m.natAbs : Int), d.e⟩

/-- The decimal 0.5. -/
def decHalf : Dec := ⟨5, 1⟩

/-- Model of Go `rand.Float64`: a value in `[0, 1)` with 53-bit resolution,
represented exactly (`v/2^53 = v·5^53/10^53`). -/
def randFloat64 (r : Rng) : Dec × Rng :=
  let (v, r') := r.next
  (⟨((v % 2 ^ 53 : Nat) : Int) * 5 ^ 53, 53⟩, r')

/-- The all-zero random stream, used for concrete evaluations. -/
def rng0 : Rng := ⟨fun _ => 0, 0⟩

/-- UTF-8 byte size of one rune, as produced by Go `len(string)`. -/
def utf8CharSize (c : Char) : Nat :=
  if c.toNat < 0x80 then 1
  else if c.toNat < 0x800 then 2
  else if c.toNat < 0x10000 then 3
  else 4

/-- Go `len(s)` on a string: the UTF-8 byte length. -/
def utf8Len (s : List Char) : Nat := (s.map utf8CharSize).sum

/-- The alphanumeric alphabet `charset` of `randomizeString`
(src/unnamed/part_008:885). -/
def charset : List Char :=
  "abcdefghijklmnopqrstuvwxyzABCDEFGHIJKLMNOPQRSTUVWXYZ0123456789".data

/-- Insertion phase of `randomizeString` (src/unnamed/part_008:891-896):
`k` times, draw an insertion position in `[0, len]` and a charset index, and
insert the drawn character at the drawn position. -/
def insertLoop : Nat → List Char → Rng → List Char × Rng
  | 0, l, r => (l, r)
  | k + 1, l, r =>
    let (pos, r1) := randIntn (l.length + 1) r
    let (ci, r2) := randIntn charset.length r1
    insertLoop k (l.insertIdx pos (charset.getD ci 'a')) r2

/-- Deletion phase of `randomizeString` (src/unnamed/part_008:899-904):
`k` times, if more than one rune remains, draw a position and delete it
(no draw is consumed when the guard fails). -/
def deleteLoop : Nat → List Char → Rng → List Char × Rng
  | 0, l, r => (l, r)
  | k + 1, l, r =>
    if l.length > 1 then
      let (pos, r1) := randIntn l.length r
      deleteLoop k (l.eraseIdx pos) r1
    else
      deleteLoop k l r

/-- Swap two positions of a list (helper for the Fisher-Yates loop). -/
def swapIdx (l : List Nat) (i j : Nat) : List Nat :=
  let a := l.getD i 0
  let b := l.getD j 0
  (l.set i b).set j a

/-- Fisher-Yates shuffle of the index array (src/unnamed/part_008:921-924):
the Go loop runs `i` from `len-1` down to `1`; the argument counts the
remaining iterations, so the call site passes `len - 1`. -/
def shuffleLoop : Nat → List Nat → Rng → List Nat × Rng
  | 0, l, r => (l, r)
  | i + 1, l, r =>
    let (j, r1) := randIntn (i + 2) r
    shuffleLoop i (swapIdx l (i + 1) j) r1

/-- Replacement phase of `randomizeString` (src/unnamed/part_008:927-930):
replace the characters at the first `changeCount` shuffled positions with
fresh charset draws. -/
def changeLoop : List Nat → Nat → List Char → Rng → List Char × Rng
  | _, 0, l, r => (l, r)
  | [], _ + 1, l, r => (l, r)
  | p :: ps, k + 1, l, r =>
    let (ci, r1) := randIntn charset.length r
    changeLoop ps k (l.set p (charset.getD ci 'a')) r1

/-- Embedding of `randomizeString` (src/unnamed/part_008:859-933).
`originalLen` is the Go byte length `len(s)`; the rune array is the char
list itself.  The length window `int(float64(n)*0.9) .. int(float64(n)*1.1)`
is modelled as `9*n/10 .. 11*n/10`: for every `n` under `2^50` the float64
products round to a value with the same integer truncation, because the
relative error of the rounded constants 0.9 and 1.1 (≈2.5e-17 and ≈8.1e-17)
is far below the distance of `0.9n`/`1.1n` to the next lower integer (≥0.1)
and below a half-ulp when the product is exactly integral. -/
def randomizeString (s : List Char) (r : Rng) : List Char × Rng :=
  let originalLen := utf8Len s
  if originalLen = 0 then (['a'], r)
  else
    let minLen0 := 9 * originalLen / 10
    let minLen := if minLen0 < 1 then 1 else minLen0
    let maxLen0 := 11 * originalLen / 10
    let maxLen := if maxLen0 < minLen then minLen else maxLen0
    let (d, r1) := randIntn (maxLen - minLen + 1) r
    let newLen := minLen + d
    let (runes, r2) :=
      if newLen = originalLen then (s, r1)
      else if newLen > originalLen then insertLoop (newLen - originalLen) s r1
      else deleteLoop (originalLen - newLen) s r1
    let changeCount0 := runes.length / 2
    let changeCount := if changeCount0 = 0 ∧ runes.length > 0 then 1 else changeCount0
    let positions := List.range runes.length
    let (positions2, r3) := shuffleLoop (runes.length - 1) positions r2
    changeLoop positions2 changeCount runes r3

/-- The decimal digit character for `n < 10`. -/
def digitChar (n : Nat) : Char := Char.ofNat (48 + n)

/-- Fuel-driven decimal rendering; the fuel always exceeds the value, so it
never runs out (kept structural so that proofs can evaluate it). -/
def natDigitsAux : Nat → Nat → List Char
  | 0, _ => []
  | fuel + 1, n =>
    if n < 10 then [digitChar n]
    else natDigitsAux fuel (n / 10) ++ [digitChar (n % 10)]

/-- Decimal rendering of a natural number (models `fmt` `%d` on naturals). -/
def natDigits (n : Nat) : List Char := natDigitsAux (n + 1) n

/-- The fuel of `natDigitsAux` is irrelevant once it exceeds the value. -/
theorem natDigitsAux_fuel : ∀ f f' n : Nat, n < f → n < f' →
    natDigitsAux f n = natDigitsAux f' n := by
  intro f
  induction f with
  | zero => intro f' n h; omega
  | succ f ih =>
    intro f' n hf hf'
    cases f' with
    | zero => omega
    | succ f' =>
      rw [natDigitsAux, natDigitsAux]
      split
      · rfl
      · rename_i hten
        have h1 : n / 10 < f := by
          have : n / 10 < n := Nat.div_lt_self (by omega) (by norm_num)
          omega
        have h2 : n / 10 < f' := by
          have : n / 10 < n := Nat.div_lt_self (by omega) (by norm_num)
          omega
        rw [ih f' (n / 10) h1 h2]

/-- Recursive unfolding of `natDigits`. -/
theorem natDigits_eq (n : Nat) :
    natDigits n = if n < 10 then [digitChar n]
      else natDigits (n / 10) ++ [digitChar (n % 10)] := by
  rw [natDigits, natDigitsAux]
  split
  · rfl
  · rename_i hten
    rw [natDigitsAux_fuel n (n / 10 + 1) (n / 10)
      (Nat.div_lt_self (by omega) (by norm_num)) (by omega)]
    rfl

/-- Zero padding to width `k` (models the `%09d` verb of
src/unnamed/part_008 via `fmt.Sprintf`). -/
def padLeft0 (k : Nat) (ds : List Char) : List Char :=
  List.replicate (k - ds.length) '0' ++ ds

/-- The mobile prefixes of `generatePhoneNumber` (src/utils/constraints.go:754). -/
def phonePrefixes : List (List Char) :=
  [['1', '3'], ['1', '4'], ['1', '5'], ['1', '6'], ['1', '7'], ['1', '8'], ['1', '9']]

/-- Embedding of `generatePhoneNumber` (src/utils/constraints.go:752-760):
a prefix drawn from `phonePrefixes` followed by `fmt.Sprintf("%09d", rand.Intn(1000000000))`. -/
def generatePhoneNumber (r : Rng) : List Char × Rng :=
  let (pi, r1) := randIntn phonePrefixes.length r
  let (n, r2) := randIntn 1000000000 r1
  ((phonePrefixes.getD pi []) ++ padLeft0 9 (natDigits n), r2)

/-- Length bound for decimal rendering: `n < 10^k` has at most `k` digits. -/
theorem natDigits_length_le : ∀ k n : Nat, 1 ≤ k → n < 10 ^ k → (natDigits n).length ≤ k := by
  intro k
  induction k with
  | zero => intro n h; omega
  | succ k ih =>
    intro n _ hn
    rw [natDigits_eq]
    split
    · simp
    · rename_i hten
      have hk1 : 1 ≤ k := by
        by_contra hk
        have : k = 0 := by omega
        subst this
        simp [pow_succ] at hn
        omega
      have hdiv : n / 10 < 10 ^ k := by
        rw [Nat.div_lt_iff_lt_mul (by norm_num)]
        calc n < 10 ^ (k + 1) := hn
        _ = 10 ^ k * 10 := by ring
      have := ih (n / 10) hk1 hdiv
      simp only [List.length_append, List.length_cons, List.length_nil]
      omega

/-- Every character produced by `natDigits` is a decimal digit. -/
theorem natDigits_mem_digits (n : Nat) : ∀ c ∈ natDigits n, c ∈ "0123456789".data := by
  induction n using Nat.strong_induction_on with
  | _ n ih =>
    rw [natDigits_eq]
    split
    · rename_i h
      intro c hc
      simp only [List.mem_singleton] at hc
      subst hc
      interval_cases n <;> decide
    · rename_i h
      intro c hc
      simp only [List.mem_append, List.mem_singleton] at hc
      rcases hc with hc | hc
      · exact ih (n / 10) (Nat.div_lt_self (by omega) (by norm_num)) c hc
      · subst hc
        have h10 : n % 10 < 10 := Nat.mod_lt _ (by norm_num)
        have : ∀ m, m < 10 → digitChar m ∈ "0123456789".data := by
          intro m hm; interval_cases m <;> decide
        exact this _ h10

/-- C9: in constrained mode, a field of constraint type `phone` always
yields a string of exactly 11 decimal digits whose first two digits are one
of 13..19, for every RNG state. -/
theorem c9_phone_shape (r : Rng) :
    ((generatePhoneNumber r).1).length = 11 ∧
    (∀ c ∈ (generatePhoneNumber r).1, c ∈ "0123456789".data) ∧
    ((generatePhoneNumber r).1).take 2 ∈
      [['1', '3'], ['1', '4'], ['1', '5'], ['1', '6'], ['1', '7'], ['1', '8'], ['1', '9']] := by
  unfold generatePhoneNumber randIntn Rng.next
  simp only
  set x := r.stream r.pos % phonePrefixes.length with hx
  have hx7 : x < 7 := by
    have : phonePrefixes.length = 7 := by decide
    rw [hx, this]
    exact Nat.mod_lt _ (by norm_num)
  set n := r.stream (r.pos + 1) % 1000000000 with hn
  have hnlt : n < 10 ^ 9 := by
    rw [hn]
    exact Nat.mod_lt _ (by norm_num)
  have hdlen : (natDigits n).length ≤ 9 := natDigits_length_le 9 n (by norm_num) hnlt
  have hpadlen : (padLeft0 9 (natDigits n)).length = 9 := by
    simp only [padLeft0, List.length_append, List.length_replicate]
    omega
  have hpaddig : ∀ c ∈ padLeft0 9 (natDigits n), c ∈ "0123456789".data := by
    intro c hc
    simp only [padLeft0, List.mem_append, List.mem_replicate] at hc
    rcases hc with ⟨_, hc⟩ | hc
    · subst hc; decide
    · exact natDigits_mem_digits n c hc
  have hpfx : ∀ p ∈ phonePrefixes, ∀ c ∈ p, c ∈ "0123456789".data := by decide
  have hmem : phonePrefixes.getD x [] ∈ phonePrefixes := by
    interval_cases x <;> decide
  have hplen : (phonePrefixes.getD x []).length = 2 := by
    interval_cases x <;> decide
  refine ⟨?_, ?_, ?_⟩
  · simp only [List.length_append, hplen, hpadlen]
  · intro c hc
    rcases List.mem_append.1 hc with hc | hc
    · exact hpfx _ hmem c hc
    · exact hpaddig c hc
  · rw [show (2 : Nat) = (phonePrefixes.getD x []).length from hplen.symm,
      List.take_left]
    interval_cases x <;> decide

/-- ASCII strings have equal byte and rune length. -/
theorem utf8Len_ascii (s : List Char) (h : ∀ c ∈ s, c.toNat < 128) :
    utf8Len s = s.length := by
  induction s with
  | nil => rfl
  | cons c cs ih =>
    have hc : c.toNat < 128 := h c (by simp)
    have hcs := ih (fun x hx => h x (by simp [hx]))
    simp only [utf8Len, List.map_cons, List.sum_cons, List.length_cons] at *
    rw [hcs, utf8CharSize, if_pos hc]
    omega

/-- The insertion phase grows the rune array by exactly its iteration count. -/
theorem insertLoop_length (k : Nat) : ∀ (l : List Char) (r : Rng),
    ((insertLoop k l r).1).length = l.length + k := by
  induction k with
  | zero => intro l r; rfl
  | succ k ih =>
    intro l r
    rw [insertLoop]
    have hpos : (Rng.next r).1 % (l.length + 1) ≤ l.length := by
      have := Nat.mod_lt (Rng.next r).1 (show 0 < l.length + 1 by omega)
      omega
    simp only [randIntn]
    rw [ih]
    rw [List.length_insertIdx _ _ hpos]
    omega

/-- The deletion phase shrinks the rune array by exactly its iteration count
as long as at least one rune would remain. -/
theorem deleteLoop_length (k : Nat) : ∀ (l : List Char) (r : Rng),
    k + 1 ≤ l.length → ((deleteLoop k l r).1).length = l.length - k := by
  induction k with
  | zero => intro l r _; rfl
  | succ k ih =>
    intro l r hk
    rw [deleteLoop]
    have hgt : l.length > 1 := by omega
    rw [if_pos hgt]
    have hpos : (Rng.next r).1 % l.length < l.length :=
      Nat.mod_lt _ (by omega)
    simp only [randIntn]
    have herase : (l.eraseIdx ((Rng.next r).1 % l.length)).length = l.length - 1 := by
      rw [List.length_eraseIdx]
      simp [hpos]
    rw [ih _ _ (by omega)]
    omega

/-- The replacement phase never changes the rune array's length. -/
theorem changeLoop_length : ∀ (ps : List Nat) (k : Nat) (l : List Char) (r : Rng),
    ((changeLoop ps k l r).1).length = l.length := by
  intro ps
  induction ps with
  | nil => intro k l r; cases k <;> rfl
  | cons p ps ih =>
    intro k l r
    cases k with
    | zero => rfl
    | succ k =>
      rw [changeLoop, ih]
      simp

/-- Final rune-array length of `randomizeString` on a nonempty ASCII input:
it equals the drawn target length, which lies between
`max (9*len/10) 1` and `11*len/10`. -/
theorem randomizeString_length (s : List Char) (r : Rng) (hne : s ≠ [])
    (hascii : ∀ c ∈ s, c.toNat < 128) :
    max (9 * s.length / 10) 1 ≤ ((randomizeString s r).1).length ∧
    ((randomizeString s r).1).length ≤ 11 * s.length / 10 := by
  have hn1 : 1 ≤ s.length := by
    cases s with
    | nil => exact absurd rfl hne
    | cons a l => simp
  have hulen : utf8Len s = s.length := utf8Len_ascii s hascii
  unfold randomizeString
  rw [hulen]
  rw [if_neg (by omega)]
  set n := s.length with hndef
  have hminmax : 9 * n / 10 ≤ 11 * n / 10 :=
    Nat.div_le_div_right (by omega)
  have hmax1 : 1 ≤ 11 * n / 10 := by
    have : n ≤ 11 * n / 10 := (Nat.le_div_iff_mul_le (by norm_num)).2 (by omega)
    omega
  have hmaxeq : (if 11 * n / 10 < (if 9 * n / 10 < 1 then 1 else 9 * n / 10)
      then (if 9 * n / 10 < 1 then 1 else 9 * n / 10) else 11 * n / 10) = 11 * n / 10 := by
    split_ifs <;> omega
  simp only [hmaxeq]
  set minLen := if 9 * n / 10 < 1 then 1 else 9 * n / 10 with hminLen
  have hminLen1 : 1 ≤ minLen := by
    rw [hminLen]; split <;> omega
  have hminLenmax : minLen = max (9 * n / 10) 1 := by
    rw [hminLen]; split <;> omega
  have hminle : minLen ≤ 11 * n / 10 := by
    rw [hminLen]; split <;> omega
  simp only [randIntn]
  set d := (Rng.next r).1 % (11 * n / 10 - minLen + 1) with hd
  have hdlt : d < 11 * n / 10 - minLen + 1 := Nat.mod_lt _ (by omega)
  set newLen := minLen + d with hnewLen
  have hnewlb : minLen ≤ newLen := by omega
  have hnewub : newLen ≤ 11 * n / 10 := by omega
  have hcore : ∀ (l2 : List Char) (r2 : Rng), l2.length = newLen →
      ((changeLoop (shuffleLoop (l2.length - 1) (List.range l2.length) r2).1
        (if l2.length / 2 = 0 ∧ l2.length > 0 then 1 else l2.length / 2) l2
        (shuffleLoop (l2.length - 1) (List.range l2.length) r2).2).1).length = newLen := by
    intro l2 r2 hl2
    rw [changeLoop_length, hl2]
  have hadj : ∀ (p : List Char × Rng), p.1.length = newLen →
      max (9 * n / 10) 1 ≤
        ((changeLoop (shuffleLoop (p.1.length - 1) (List.range p.1.length) p.2).1
          (if p.1.length / 2 = 0 ∧ p.1.length > 0 then 1 else p.1.length / 2) p.1
          (shuffleLoop (p.1.length - 1) (List.range p.1.length) p.2).2).1).length ∧
      ((changeLoop (shuffleLoop (p.1.length - 1) (List.range p.1.length) p.2).1
          (if p.1.length / 2 = 0 ∧ p.1.length > 0 then 1 else p.1.length / 2) p.1
          (shuffleLoop (p.1.length - 1) (List.range p.1.length) p.2).2).1).length ≤
        11 * n / 10 := by
    intro p hp
    rw [hcore p.1 p.2 hp]
    constructor
    · rw [← hminLenmax]; exact hnewlb
    · exact hnewub
  split
  · rename_i heq
    exact hadj (s, _) (by simpa using heq.symm)
  · split
    · rename_i hneq hgt
      exact hadj _ (by rw [insertLoop_length]; omega)
    · rename_i hneq hlt
      refine hadj _ ?_
      rw [deleteLoop_length]
      · omega
      · omega

/-- Witness for `randomizeString_length` at a concrete input and stream. -/
theorem randomizeString_length_witness :
    (("abc".data : List Char) ≠ [] ∧ ∀ c ∈ "abc".data, c.toNat < 128) ∧
    (max (9 * ("abc".data : List Char).length / 10) 1 ≤
        ((randomizeString "abc".data rng0).1).length ∧
      ((randomizeString "abc".data rng0).1).length ≤
        11 * ("abc".data : List Char).length / 10) :=
  ⟨⟨by decide, by decide⟩,
    randomizeString_length "abc".data rng0 (by decide) (by decide)⟩

/-- C4 counterexample: the claim's lower bound `ceil(0.9*len)` fails.  For
the 5-character input "abcde" the code computes the window with Go `int`
truncation, `int(0.9*5) = 4`, so a 4-character result is reachable (here
with the all-zero stream), yet `ceil(0.9*5) = 5`. -/
theorem c4_counterexample :
    ((randomizeString "abcde".data rng0).1).length = 4 ∧
    4 < (9 * 5 + 9) / 10 := by
  constructor
  · decide
  · decide

/-- Go strings in the embedding. -/
abbrev Str := List Char

/-- Embedding of Go `any` values as produced by the decoders of
src/unnamed/part_008 (`map[string]any` trees).  `float64` is idealized as an
exact rational; every theorem below either avoids float values or notes the
idealization. -/
inductive GoVal where
  | vInt (n : Int)
  | vFlt (q : Dec)
  | vBool (b : Bool)
  | vStr (s : Str)
  | vNull
  | vArr (xs : List GoVal)
  | vObj (m : List (Str × GoVal))

/-- Decimal digit value of a character. -/
def digitVal (c : Char) : Option Nat :=
  if '0' ≤ c ∧ c ≤ '9' then some (c.toNat - 48) else none

/-- Accumulating decimal parse; fails on the first non-digit. -/
def parseDigitsAux : Str → Nat → Option Nat
  | [], acc => some acc
  | c :: cs, acc =>
    match digitVal c with
    | some d => parseDigitsAux cs (acc * 10 + d)
    | none => none

/-- Parse a nonempty all-digit string. -/
def parseDigits (l : Str) : Option Nat :=
  if l = [] then none else parseDigitsAux l 0

/-- Largest `int64`. -/
def maxInt64 : Int := 9223372036854775807

/-- Smallest `int64`. -/
def minInt64 : Int := -9223372036854775808

/-- Model of Go `strconv.ParseInt(s, 10, 64)`: optional sign, decimal
digits, 64-bit range; any failure (including overflow) is `none`. -/
def goParseInt (s : Str) : Option Int :=
  match s with
  | '+' :: rest => (parseDigits rest).bind fun a =>
      if (a : Int) ≤ maxInt64 then some (a : Int) else none
  | '-' :: rest => (parseDigits rest).bind fun a =>
      if minInt64 ≤ -(a : Int) then some (-(a : Int)) else none
  | _ => (parseDigits s).bind fun a =>
      if (a : Int) ≤ maxInt64 then some (a : Int) else none

/-- Strip an optional sign, returning the negativity flag. -/
def splitSign : Str → Bool × Str
  | '+' :: rest => (false, rest)
  | '-' :: rest => (true, rest)
  | s => (false, s)

/-- Model of Go `strconv.ParseFloat(s, 64)` on ordinary decimal notation
(optional sign, digits with optional fraction, optional exponent), with the
value kept exact as a decimal instead of being rounded to a binary double.
The special spellings ParseFloat also accepts (Inf, NaN, hex floats) are not
modelled; no theorem below depends on them. -/
def goParseFloat (s : Str) : Option Dec :=
  let (neg, s1) := splitSign s
  let ip := s1.takeWhile Char.isDigit
  let rest1 := s1.dropWhile Char.isDigit
  let (fp, rest2) :=
    match rest1 with
    | '.' :: t => (t.takeWhile Char.isDigit, t.dropWhile Char.isDigit)
    | _ => ([], rest1)
  if ip = [] ∧ fp = [] then none
  else
    let mantissa : Int :=
      ((parseDigitsAux ip 0).getD 0 : Int) * 10 ^ fp.length +
        ((parseDigitsAux fp 0).getD 0 : Int)
    let signed : Int := if neg then -mantissa else mantissa
    match rest2 with
    | [] => some (Dec.norm ⟨signed, fp.length⟩)
    | e :: t =>
      if e = 'e' ∨ e = 'E' then
        let (eneg, t1) := splitSign t
        match parseDigits t1 with
        | some ex =>
          if eneg then some (Dec.norm ⟨signed, fp.length + ex⟩)
          else some (Dec.norm ⟨signed * 10 ^ ex, fp.length⟩)
        | none => none
      else none

/-- Count of decimal places of the shortest exact decimal expansion (models
the decimal-place count Go recovers from `fmt.Sprintf("%v", f)` for the
float values reached by the claims). -/
def decPlaces (q : Dec) : Nat := (Dec.norm q).e

/-- Decimal rendering of an integer (Go `%d` / `strconv.FormatInt`). -/
def intChars (n : Int) : Str :=
  if n < 0 then '-' :: natDigits n.natAbs else natDigits n.natAbs

/-- Model of Go `strconv.FormatFloat(q, 'f', p, 64)`: fixed-point rendering
with `p` decimals.  Decimal rounding of the underlying double is idealized
as exact decimal rounding half away from zero. -/
def formatFixed (q : Dec) (p : Nat) : Str :=
  let n := Dec.roundAway (Dec.mul q ⟨10 ^ p, 0⟩)
  let a := n.natAbs
  let sign : Str := if n < 0 then ['-'] else []
  if p = 0 then sign ++ natDigits a
  else sign ++ natDigits (a / 10 ^ p) ++ '.' :: padLeft0 p (natDigits (a % 10 ^ p))

/-- Model of Go `strconv.FormatFloat(q, 'f', -1, 64)`: the shortest
fixed-point rendering, idealized through `decPlaces`. -/
def shortestDec (q : Dec) : Str :=
  let c := Dec.norm q
  if c.e = 0 then intChars c.m
  else (if c.m < 0 then ['-'] else []) ++
    natDigits (c.m.natAbs / 10 ^ c.e) ++ '.' :: padLeft0 c.e (natDigits (c.m.natAbs % 10 ^ c.e))

/-- Decimal-place count Go reads off a numeric string literal
(src/unnamed/part_008:816-819): characters after the first dot. -/
def litDecPlaces (s : Str) : Nat :=
  match s.findIdx? (fun c => c = '.') with
  | some i => s.length - i - 1
  | none => 0

/-- Array-string phase of `generateVariation` (src/unnamed/part_008:795-804):
each comma-separated part is string-randomized with probability 1/2. -/
def arrStrParts : List Str → Rng → List Str × Rng
  | [], r => ([], r)
  | p :: ps, r =>
    let (u, r1) := randFloat64 r
    let (p2, r2) := if Dec.blt u decHalf then randomizeString p r1 else (p, r1)
    let (rest, r3) := arrStrParts ps r2
    (p2 :: rest, r3)

mutual

/-- Embedding of `generateVariation` (src/unnamed/part_008:728-855).  The
integer arms mirror the Go code exactly, including the fact that a negative
value of `variation` reaches `rand.Int63n` with a non-positive argument,
which panics (`none`).  The map arm iterates the association list in order
(Go ranges over the map in unspecified order; the embedding determinizes
it).  Width-specific `int8/int16/int32` re-casting is identity here because
the claims only evaluate values far inside every width. -/
def generateVariation (rate : Dec) : GoVal → Rng → Option (GoVal × Rng)
  | .vInt n, r =>
    let v0 := Dec.trunc (Dec.mul (Dec.ofInt n) rate)
    let v1 := if v0 = 0 then 1 else v0
    match randInt63n (2 * v1 + 1) r with
    | none => none
    | some (step, r1) => some (.vInt (n + step - v1), r1)
  | .vFlt q, r =>
    let variation := Dec.mul q rate
    let (u, r1) := randFloat64 r
    let newVal := Dec.add q (Dec.mul (Dec.sub (Dec.mul ⟨2, 0⟩ u) ⟨1, 0⟩) variation)
    let dp := decPlaces q
    if 0 < dp then
      some (.vFlt (Dec.norm ⟨Dec.roundAway (Dec.mul newVal ⟨10 ^ dp, 0⟩), dp⟩), r1)
    else
      some (.vFlt newVal, r1)
  | .vStr s, r =>
    if s.contains ',' then
      let (parts, r1) := arrStrParts (s.splitOn ',') r
      some (.vStr (List.intercalate [','] parts), r1)
    else
      match goParseInt s with
      | some n =>
        let v1 := Dec.trunc (Dec.mul (Dec.ofInt n) rate)
        match randInt63n (2 * v1 + 1) r with
        | none => none
        | some (step, r1) => some (.vStr (intChars (n + step - v1)), r1)
      | none =>
        match goParseFloat s with
        | some q =>
          let variation := Dec.mul q rate
          let (u, r1) := randFloat64 r
          let newVal := Dec.add q (Dec.mul (Dec.sub (Dec.mul ⟨2, 0⟩ u) ⟨1, 0⟩) variation)
          some (.vStr (formatFixed newVal (litDecPlaces s)), r1)
        | none =>
          let (s2, r1) := randomizeString s r
          some (.vStr s2, r1)
  | .vBool b, r =>
    let (u, r1) := randFloat64 r
    some (.vBool (if Dec.blt u decHalf then !b else b), r1)
  | .vNull, r => some (.vNull, r)
  | .vArr xs, r =>
    match generateVariationList rate xs r with
    | none => none
    | some (ys, r1) => some (.vArr ys, r1)
  | .vObj m, r =>
    match generateVariationObj rate m r with
    | none => none
    | some (m2, r1) => some (.vObj m2, r1)

/-- Element-wise recursion of `generateVariation` over arrays. -/
def generateVariationList (rate : Dec) : List GoVal → Rng → Option (List GoVal × Rng)
  | [], r => some ([], r)
  | x :: xs, r =>
    match generateVariation rate x r with
    | none => none
    | some (y, r1) =>
      match generateVariationList rate xs r1 with
      | none => none
      | some (ys, r2) => some (y :: ys, r2)

/-- Field-wise recursion of `generateVariation` over objects. -/
def generateVariationObj (rate : Dec) :
    List (Str × GoVal) → Rng → Option (List (Str × GoVal) × Rng)
  | [], r => some ([], r)
  | (k, x) :: xs, r =>
    match generateVariation rate x r with
    | none => none
    | some (y, r1) =>
      match generateVariationObj rate xs r1 with
      | none => none
      | some (m2, r2) => some ((k, y) :: m2, r2)

end

/-- C3 (code bug): for every RNG state, the statistical variation of the
integer leaf -2 at rate 0.5 panics instead of producing a variant: the code
computes `variation = int64(float64(-2)*0.5) = -1`, skips the zero guard
because -1 is nonzero, and calls `rand.Int63n(-1)`, which panics in Go.
The claim (a variant within `round(|v|*0.5)+1 = 2` of the original) is the
documented intent; the missing absolute value in the code is the slip. -/
theorem c3_generateVariation_negative_panics (r : Rng) :
    generateVariation decHalf (.vInt (-2)) r = none := by
  have h1 : Dec.trunc (Dec.mul (Dec.ofInt (-2)) decHalf) = -1 := by decide
  rw [generateVariation, h1]
  norm_num [randInt63n]

/-- Opening brace character. -/
def obrace : Char := Char.ofNat 123

/-- Closing brace character. -/
def cbrace : Char := Char.ofNat 125

/-- Syntax of JSON source texts fed to `ParseJSON`, with enough literal
information to reproduce the exact source text: `jFlt m p` is the fixed
literal with scaled integer `m` and exactly `p` decimal places (e.g.
`jFlt 250 2` is the literal 2.50). -/
inductive JLit where
  | jInt (n : Int)
  | jFlt (m : Int) (p : Nat)
  | jBool (b : Bool)
  | jNull
  | jStr (s : Str)
  | jArr (xs : List JLit)
  | jObj (ms : List (Str × JLit))

/-- Fixed-point literal text with exactly `p` decimal places. -/
def fltChars (m : Int) (p : Nat) : Str :=
  let a := m.natAbs
  let sign : Str := if m < 0 then ['-'] else []
  if p = 0 then sign ++ natDigits a
  else sign ++ natDigits (a / 10 ^ p) ++ '.' :: padLeft0 p (natDigits (a % 10 ^ p))

mutual

/-- Compact textual rendering of a JSON literal (the source text the user
wrote; the embedding fixes the canonical whitespace-free spelling). -/
def renderLit : JLit → Str
  | .jInt n => intChars n
  | .jFlt m p => fltChars m p
  | .jBool b => if b then "true".data else "false".data
  | .jNull => "null".data
  | .jStr s => '"' :: (s ++ ['"'])
  | .jArr xs => '[' :: (renderArr xs ++ [']'])
  | .jObj ms => obrace :: (renderMembers ms ++ [cbrace])

/-- Comma-joined rendering of array elements. -/
def renderArr : List JLit → Str
  | [] => []
  | [x] => renderLit x
  | x :: y :: rest => renderLit x ++ ',' :: renderArr (y :: rest)

/-- Comma-joined rendering of object members. -/
def renderMembers : List (Str × JLit) → Str
  | [] => []
  | [(k, v)] => '"' :: (k ++ '"' :: ':' :: renderLit v)
  | (k, v) :: m :: rest =>
    '"' :: (k ++ '"' :: ':' :: renderLit v) ++ ',' :: renderMembers (m :: rest)

end

/-- The source text of a whole JSON object document. -/
def renderDoc (ms : List (Str × JLit)) : Str := renderLit (.jObj ms)

/-- Go map read `m[k]`. -/
def mapLookup (m : List (Str × GoVal)) (k : Str) : Option GoVal :=
  match m with
  | [] => none
  | (k1, v) :: rest => if k1 = k then some v else mapLookup rest k

/-- Go map write `m[k] = v` (overwrite or append). -/
def mapInsert (m : List (Str × GoVal)) (k : Str) (v : GoVal) : List (Str × GoVal) :=
  match m with
  | [] => [(k, v)]
  | (k1, v1) :: rest => if k1 = k then (k1, v) :: rest else (k1, v1) :: mapInsert rest k v

mutual

/-- Model of `json.Decoder.Decode` (with `UseNumber`) composed with
`convertNumbers` (src/unnamed/part_008:485-538) on one literal: integer
literals that fit `int64` become Go integers, every other numeric literal
becomes a `float64` (idealized as the exact rational), and the literal's
textual decimal places are forgotten. -/
def decodeLit : JLit → GoVal
  | .jInt n => if minInt64 ≤ n ∧ n ≤ maxInt64 then .vInt n else .vFlt (Dec.ofInt n)
  | .jFlt m p =>
    if p = 0 then (if minInt64 ≤ m ∧ m ≤ maxInt64 then .vInt m else .vFlt (Dec.ofInt m))
    else .vFlt (Dec.norm ⟨m, p⟩)
  | .jBool b => .vBool b
  | .jNull => .vNull
  | .jStr s => .vStr s
  | .jArr xs => .vArr (decodeList xs)
  | .jObj ms => .vObj (decodeMembers ms [])

/-- Element-wise decoding of arrays. -/
def decodeList : List JLit → List GoVal
  | [] => []
  | x :: xs => decodeLit x :: decodeList xs

/-- Member-wise decoding of objects into a Go map (later duplicate keys
overwrite earlier ones, as in Go). -/
def decodeMembers : List (Str × JLit) → List (Str × GoVal) → List (Str × GoVal)
  | [], acc => acc
  | (k, v) :: rest, acc => decodeMembers rest (mapInsert acc k (decodeLit v))

end

/-- Whitespace removal of `extractJSONKeys` (src/unnamed/part_008:570-572):
the three `strings.ReplaceAll` calls delete every space, newline and tab. -/
def stripWS (s : Str) : Str :=
  s.filter (fun c => !(c == ' ' || c == '\n' || c == '\t'))

/-- Scanner state of `extractJSONKeys` (src/unnamed/part_008:583-588). -/
structure JKeySt where
  keys : List Str
  inQuote : Bool
  inArray : Int
  inObject : Int
  start : Nat
  key : Str

/-- Initial scanner state. -/
def extractInit : JKeySt := ⟨[], false, 0, 0, 0, []⟩

/-- One iteration of the `extractJSONKeys` scan loop
(src/unnamed/part_008:590-630), in the source's order: quote toggling with
escape look-behind, colon emission, bracket counters, brace counters, comma
reset.  `full` is the brace-stripped string, used for the `jsonStr[start:i]`
slice. -/
def extractStep (full : Str) (st : JKeySt) (i : Nat) (prev : Option Char) (ch : Char) :
    JKeySt :=
  let st1 :=
    if ch = '"' ∧ prev ≠ some '\\' then
      let q := !st.inQuote
      if q ∧ st.inArray = 0 ∧ st.inObject = 0 then
        { st with inQuote := q, start := i + 1 }
      else if (!q) ∧ st.inArray = 0 ∧ st.inObject = 0 then
        { st with inQuote := q, key := (full.drop st.start).take (i - st.start) }
      else
        { st with inQuote := q }
    else st
  let st2 :=
    if ch = ':' ∧ st1.inQuote = false ∧ st1.inArray = 0 ∧ st1.inObject = 0 ∧ st1.key ≠ [] then
      { st1 with keys := st1.keys ++ [st1.key], key := [] }
    else st1
  let st3 :=
    if ch = '[' ∧ st2.inQuote = false then { st2 with inArray := st2.inArray + 1 }
    else if ch = ']' ∧ st2.inQuote = false then { st2 with inArray := st2.inArray - 1 }
    else st2
  let st4 :=
    if ch = obrace ∧ st3.inQuote = false then { st3 with inObject := st3.inObject + 1 }
    else if ch = cbrace ∧ st3.inQuote = false then { st3 with inObject := st3.inObject - 1 }
    else st3
  if ch = ',' ∧ st4.inQuote = false ∧ st4.inArray = 0 ∧ st4.inObject = 0 then
    { st4 with key := [] }
  else st4

/-- The scan loop of `extractJSONKeys` over the remaining characters,
carrying the byte index and previous character.  Character positions equal
byte positions at every index the scanner ever slices, because slices start
and end at ASCII quote characters. -/
def extractLoop (full : Str) : Str → Nat → Option Char → JKeySt → JKeySt
  | [], _, _, st => st
  | ch :: rest, i, prev, st =>
    extractLoop full rest (i + 1) (some ch) (extractStep full st i prev ch)

/-- Embedding of `extractJSONKeys` (src/unnamed/part_008:568-633). -/
def extractJSONKeys (jsonStr : Str) : List Str :=
  let s := stripWS jsonStr
  match s with
  | [] => []
  | c :: rest =>
    if c = obrace ∧ s.getLast? = some cbrace then
      let inner := rest.dropLast
      (extractLoop inner inner 0 none extractInit).keys
    else []

/-- String escaping of `customJSONMarshal` (src/unnamed/part_008:1159-1160):
escape backslashes, then quotes. -/
def escJSON (s : Str) : Str :=
  s.flatMap fun c =>
    if c = '\\' then ['\\', '\\'] else if c = '"' then ['\\', '"'] else [c]

/-- Bytewise (equivalently, code-point-wise) string order used by Go
`sort.Strings`. -/
def leStr : Str → Str → Bool
  | [], _ => true
  | _ :: _, [] => false
  | a :: as, b :: bs => if a < b then true else if b < a then false else leStr as bs

/-- Insertion into a key-sorted list. -/
def insertSorted (k : Str) : List Str → List Str
  | [] => [k]
  | x :: xs => if leStr k x then k :: x :: xs else x :: insertSorted k xs

/-- Model of Go `sort.Strings`: insertion sort under `leStr`. -/
def sortKeys : List Str → List Str
  | [] => []
  | x :: xs => insertSorted x (sortKeys xs)

/-- Insertion into a list of rendered pairs sorted by key. -/
def insertSortedPair (p : Str × Str) : List (Str × Str) → List (Str × Str)
  | [] => [p]
  | x :: xs => if leStr p.1 x.1 then p :: x :: xs else x :: insertSortedPair p xs

/-- Sort rendered pairs by key. -/
def sortPairs : List (Str × Str) → List (Str × Str)
  | [] => []
  | x :: xs => insertSortedPair x (sortPairs xs)

/-- Comma join. -/
def joinComma (xs : List Str) : Str := List.intercalate [','] xs

mutual

/-- Model of the standard `json.Marshal` on decoded values, used by
`customJSONMarshal` as its fallback for deeply nested values: map keys are
sorted, strings are escaped, integral floats print without a decimal point.
The HTML escaping (&, <, >) and exponent notation for extreme floats that
encoding/json would apply are not modelled; no theorem evaluates this
fallback on such values. -/
def stdMarshal : GoVal → Str
  | .vInt n => intChars n
  | .vFlt q => if (Dec.norm q).e = 0 then intChars (Dec.norm q).m else shortestDec q
  | .vBool b => if b then "true".data else "false".data
  | .vStr s => '"' :: (escJSON s ++ ['"'])
  | .vNull => "null".data
  | .vArr xs => '[' :: (joinComma (stdMarshalList xs) ++ [']'])
  | .vObj m =>
    obrace ::
      (joinComma ((sortPairs (stdMarshalPairs m)).map fun p =>
        '"' :: (escJSON p.1 ++ '"' :: ':' :: p.2)) ++ [cbrace])

/-- Rendered array elements for `stdMarshal`. -/
def stdMarshalList : List GoVal → List Str
  | [] => []
  | x :: xs => stdMarshal x :: stdMarshalList xs

/-- Rendered object members for `stdMarshal` (sorted afterwards). -/
def stdMarshalPairs : List (Str × GoVal) → List (Str × Str)
  | [] => []
  | (k, v) :: rest => (k, stdMarshal v) :: stdMarshalPairs rest

end

/-- Float rendering of `customJSONMarshal` (src/unnamed/part_008:1166-1175):
integral floats below 1e15 print as integers (`%.0f`), every other float
prints in shortest fixed notation (`strconv.FormatFloat 'f' -1`).  The Go
test `floatVal == math.Trunc(floatVal)` is integrality of the decimal. -/
def custFloat (q : Dec) : Str :=
  if (Dec.norm q).e = 0 ∧ Dec.blt (Dec.abs q) ⟨1000000000000000, 0⟩ then
    intChars (Dec.norm q).m
  else shortestDec q

/-- Array-item rendering of the top-level array case of `customJSONMarshal`
(src/unnamed/part_008:1178-1211); complex items fall back to `json.Marshal`. -/
def custArrItem : GoVal → Str
  | .vStr s => '"' :: (escJSON s ++ ['"'])
  | .vInt n => intChars n
  | .vFlt q => custFloat q
  | .vBool b => if b then "true".data else "false".data
  | v => stdMarshal v

/-- Value rendering inside a first-level nested object of
`customJSONMarshal` (src/unnamed/part_008:1234-1277): scalars as at top
level, arrays item-by-item via `json.Marshal`, deeper maps and null via
`json.Marshal`. -/
def custNestedVal : GoVal → Str
  | .vStr s => '"' :: (escJSON s ++ ['"'])
  | .vInt n => intChars n
  | .vFlt q => custFloat q
  | .vBool b => if b then "true".data else "false".data
  | .vArr xs => '[' :: (joinComma (xs.map stdMarshal) ++ [']'])
  | .vObj m => stdMarshal (.vObj m)
  | .vNull => stdMarshal .vNull

/-- First-level nested-object rendering of `customJSONMarshal`
(src/unnamed/part_008:1212-1279): keys are collected from the map and
sorted (`sort.Strings`), keys are written unescaped. -/
def custNestedObj (m : List (Str × GoVal)) : Str :=
  obrace ::
    (joinComma ((sortKeys (m.map Prod.fst)).filterMap fun k =>
      (mapLookup m k).map fun v => '"' :: (k ++ '"' :: ':' :: custNestedVal v)) ++ [cbrace])

/-- Top-level value rendering of `customJSONMarshal`
(src/unnamed/part_008:1156-1289). -/
def custTopVal : GoVal → Str
  | .vStr s => '"' :: (escJSON s ++ ['"'])
  | .vInt n => intChars n
  | .vFlt q => custFloat q
  | .vBool b => if b then "true".data else "false".data
  | .vArr xs => '[' :: (joinComma (xs.map custArrItem) ++ [']'])
  | .vObj m => custNestedObj m
  | .vNull => "null".data

/-- Embedding of `customJSONMarshal` (src/unnamed/part_008:1125-1294): keys
come from the captured key order (or, when that is empty, from the map — the
embedding determinizes Go's unspecified map iteration order to list order),
missing keys are skipped (`continue`), and the `first` flag is equivalent to
a comma join of the emitted fields. -/
def customJSONMarshal (data : List (Str × GoVal)) (keyOrder : List Str) : Str :=
  let keys := if keyOrder = [] then data.map Prod.fst else keyOrder
  obrace ::
    (joinComma (keys.filterMap fun k =>
      (mapLookup data k).map fun v => '"' :: (k ++ '"' :: ':' :: custTopVal v)) ++ [cbrace])

/-- Parse-then-serialize round trip with zero mutation, as composed by the
pipeline: `ParseJSON` captures the key order from the raw text and decodes
the value tree; `customJSONMarshal` re-serializes it. -/
def roundTripJSON (ms : List (Str × JLit)) : Str :=
  customJSONMarshal (decodeMembers ms []) (extractJSONKeys (renderDoc ms))

/-- C1 counterexample: parse→serialize with zero mutation does not
reproduce the source's key order at every nesting level, nor the literal
decimal-place count — and not even the top-level key order in general.
For `("{"a":{"b":1,"a":2}}")` the nested keys come back sorted (`a` before
`b`, while the source wrote `b` first), because the serializer orders
nested objects with `sort.Strings`; the literal `2.50` comes back as
`2.5`, because the decoder keeps only the float64 value; and for
`("{"a b":1}")` the whitespace strip of `extractJSONKeys` mangles the
quoted key to `ab`, the serializer's map lookup misses, and the member
vanishes entirely — the round trip returns `("{}")`.  (Braces in the
expected strings are written as \x7b/\x7d.) -/
theorem c1_counterexample :
    renderDoc [("a".data, JLit.jObj [("b".data, JLit.jInt 1), ("a".data, JLit.jInt 2)])] =
      "\x7b\"a\":\x7b\"b\":1,\"a\":2\x7d\x7d".data ∧
    roundTripJSON [("a".data, JLit.jObj [("b".data, JLit.jInt 1), ("a".data, JLit.jInt 2)])] =
      "\x7b\"a\":\x7b\"a\":2,\"b\":1\x7d\x7d".data ∧
    roundTripJSON [("a".data, JLit.jObj [("b".data, JLit.jInt 1), ("a".data, JLit.jInt 2)])] ≠
      renderDoc [("a".data, JLit.jObj [("b".data, JLit.jInt 1), ("a".data, JLit.jInt 2)])] ∧
    renderDoc [("x".data, JLit.jFlt 250 2)] = "\x7b\"x\":2.50\x7d".data ∧
    roundTripJSON [("x".data, JLit.jFlt 250 2)] = "\x7b\"x\":2.5\x7d".data ∧
    renderDoc [("a b".data, JLit.jInt 1)] = "\x7b\"a b\":1\x7d".data ∧
    roundTripJSON [("a b".data, JLit.jInt 1)] = "\x7b\x7d".data := by
  refine ⟨by decide, by decide, by decide, by decide, by decide, by decide, by decide⟩

/-- The package-level mutable variables of `utils`
(src/unnamed/part_008:20-24), threaded explicitly. -/
structure GlobalState where
  originalKeyOrder : List Str
  originalValueTypes : List (Str × Str)
  originalRootElementName : Str
  originalHasXMLDeclaration : Bool
  originalXMLDeclaration : Str

/-- Zero values of the package-level variables at process start. -/
def initState : GlobalState := ⟨[], [], [], false, []⟩

/-- A top-level JSON text: an object, an array, or a single scalar. -/
inductive JTop where
  | tObj (ms : List (Str × JLit))
  | tArr (xs : List JLit)
  | tScalar (l : JLit)

/-- Source text of a top-level JSON value. -/
def renderTop : JTop → Str
  | .tObj ms => renderDoc ms
  | .tArr xs => renderLit (.jArr xs)
  | .tScalar l => renderLit l

/-- Modelled behaviour of `json.Decoder.Decode(&result)` for
`result : map[string]any` followed by `convertNumbers`: decoding an object
yields its members; decoding the literal `null` succeeds and leaves the
map nil (so `convertNumbers` returns the empty map); an array or any other
scalar top level is a decode error. -/
def goDecodeIntoMap : JTop → Option (List (Str × GoVal))
  | .tObj ms => some (decodeMembers ms [])
  | .tArr _ => none
  | .tScalar .jNull => some []
  | .tScalar _ => none

/-- Embedding of `ParseJSON` (src/unnamed/part_008:541-565): decode into a
map (failing on non-objects other than the literal `null`), then capture
the textual key order into the package-level `originalKeyOrder`, but only
when at least one key was extracted. -/
def parseJSON (t : JTop) (g : GlobalState) :
    Option (List (Str × GoVal)) × GlobalState :=
  match goDecodeIntoMap t with
  | none => (none, g)
  | some m =>
    let keys := extractJSONKeys (renderTop t)
    if keys.length > 0 then (some m, { g with originalKeyOrder := keys })
    else (some m, g)

/-- C10 counterexample: the scalar source text `null` does NOT make
`ParseJSON` fail.  Decoding `null` into a `map[string]any` succeeds (the
map stays nil), so `ParseJSON` returns an empty document and no error, and
the package state is left untouched (no keys are extracted from `null`). -/
theorem c10_counterexample :
    renderTop (JTop.tScalar JLit.jNull) = "null".data ∧
    (parseJSON (JTop.tScalar JLit.jNull) initState).1 = some [] ∧
    (parseJSON (JTop.tScalar JLit.jNull) initState).1.isSome = true := by
  refine ⟨by decide, by rfl, by decide⟩

/-- C10 (amended): `ParseJSON` succeeds exactly on top-level objects and on
the literal `null` — a top-level array or any other scalar is a decode
error.  On an object the document is exactly the decoded members; on
`null` the document is empty and the package state is returned unchanged
(no keys are extracted from `null`). -/
theorem c10_parseJSON_object_or_null (t : JTop) (g : GlobalState) :
    ((parseJSON t g).1.isSome ↔ (∃ ms, t = .tObj ms) ∨ t = .tScalar .jNull) ∧
    (∀ ms, t = .tObj ms → (parseJSON t g).1 = some (decodeMembers ms [])) ∧
    (t = .tScalar .jNull → parseJSON t g = (some [], g)) := by
  refine ⟨?_, ?_, ?_⟩
  · cases t with
    | tObj ms =>
      simp only [parseJSON, goDecodeIntoMap]
      constructor
      · intro _; exact Or.inl ⟨ms, rfl⟩
      · intro _
        split <;> rfl
    | tArr xs =>
      constructor
      · intro h; simp [parseJSON, goDecodeIntoMap] at h
      · rintro (⟨ms, hms⟩ | hms) <;> exact JTop.noConfusion hms
    | tScalar l =>
      cases l with
      | jNull =>
        constructor
        · intro _; exact Or.inr rfl
        · intro _
          simp only [parseJSON, goDecodeIntoMap]
          split <;> rfl
      | jInt n =>
        constructor
        · intro h; simp [parseJSON, goDecodeIntoMap] at h
        · rintro (⟨ms, hms⟩ | hms)
          · exact JTop.noConfusion hms
          · exact absurd hms (by simp)
      | jFlt m p =>
        constructor
        · intro h; simp [parseJSON, goDecodeIntoMap] at h
        · rintro (⟨ms, hms⟩ | hms)
          · exact JTop.noConfusion hms
          · exact absurd hms (by simp)
      | jBool b =>
        constructor
        · intro h; simp [parseJSON, goDecodeIntoMap] at h
        · rintro (⟨ms, hms⟩ | hms)
          · exact JTop.noConfusion hms
          · exact absurd hms (by simp)
      | jStr s =>
        constructor
        · intro h; simp [parseJSON, goDecodeIntoMap] at h
        · rintro (⟨ms, hms⟩ | hms)
          · exact JTop.noConfusion hms
          · exact absurd hms (by simp)
      | jArr xs =>
        constructor
        · intro h; simp [parseJSON, goDecodeIntoMap] at h
        · rintro (⟨ms, hms⟩ | hms)
          · exact JTop.noConfusion hms
          · exact absurd hms (by simp)
      | jObj ms2 =>
        constructor
        · intro h; simp [parseJSON, goDecodeIntoMap] at h
        · rintro (⟨ms, hms⟩ | hms)
          · exact JTop.noConfusion hms
          · exact absurd hms (by simp)
  · intro ms ht
    subst ht
    simp only [parseJSON, goDecodeIntoMap]
    split <;> rfl
  · intro ht
    subst ht
    rfl

/-- Witness for `c10_parseJSON_object_or_null` at a concrete document. -/
theorem c10_parseJSON_object_or_null_witness :
    (parseJSON (.tObj [("a".data, JLit.jInt 1)]) initState).1 =
      some (decodeMembers [("a".data, JLit.jInt 1)] []) :=
  (c10_parseJSON_object_or_null (.tObj [("a".data, JLit.jInt 1)]) initState).2.1 _ rfl

/-- Embedding of the `FieldConstraint` TOML structure
(src/utils/constraints.go:16-29); nil pointers are `none`, absent strings
are empty.  `float64` bounds are exact decimals. -/
structure FieldConstraint where
  type : Str
  format : Str
  minDate : Str
  maxDate : Str
  minDatetime : Str
  maxDatetime : Str
  timezone : Str
  min : Option Dec
  max : Option Dec
  precision : Option Int
  keepOriginal : Option Bool
  description : Str
deriving DecidableEq

/-- A constraint with every field unset (Go zero value). -/
def emptyConstraint : FieldConstraint :=
  ⟨[], [], [], [], [], [], [], none, none, none, none, []⟩

/-- Embedding of `BuiltinData` (src/utils/constraints.go:32-37). -/
structure BuiltinData where
  firstNames : List Str
  lastNames : List Str
  addresses : List Str
  emailDomains : List Str
deriving DecidableEq

/-- Embedding of `ConstraintConfig` (src/utils/constraints.go:40-43); the Go
map of constraints is an association list (Go iterates the map in
unspecified order; the embedding determinizes it to list order). -/
structure ConstraintConfig where
  constraints : List (Str × FieldConstraint)
  builtinData : BuiltinData
deriving DecidableEq

/-- Leap year rule of the Gregorian calendar (as in Go `time`). -/
def isLeap (y : Nat) : Bool :=
  (y % 4 == 0 && y % 100 != 0) || (y % 400 == 0)

/-- Day count of a month (as validated by Go `time.Parse`). -/
def daysInMonth (y mo : Nat) : Nat :=
  if mo = 2 then (if isLeap y then 29 else 28)
  else if mo = 4 ∨ mo = 6 ∨ mo = 9 ∨ mo = 11 then 30
  else 31

/-- Model of Go `time.Parse("20060102", s)`: exactly eight digits, month in
1..12, day valid for the month; the resulting civil date. -/
def parseYMD (s : Str) : Option (Nat × Nat × Nat) :=
  if s.length = 8 ∧ s.all Char.isDigit then
    let y := (parseDigitsAux (s.take 4) 0).getD 0
    let mo := (parseDigitsAux ((s.drop 4).take 2) 0).getD 0
    let d := (parseDigitsAux (s.drop 6) 0).getD 0
    if 1 ≤ mo ∧ mo ≤ 12 ∧ 1 ≤ d ∧ d ≤ daysInMonth y mo then some (y, mo, d) else none
  else none

/-- The civil date of Go's zero `time.Time` (year 1, January 1): both an
unset date variable and a parsed `"00010101"` compare equal to it, exactly
as `time.Time.IsZero` behaves in the validator. -/
def zeroYMD : Nat × Nat × Nat := (1, 1, 1)

/-- Injective monotone key for civil-date comparison (`time.Time.Before` on
midnight dates); valid because months stay below 32 and days below 32. -/
def ymdKey (x : Nat × Nat × Nat) : Nat := x.1 * 1024 + x.2.1 * 32 + x.2.2

/-- `a.Before b` for parsed dates. -/
def ymdLt (a b : Nat × Nat × Nat) : Bool := ymdKey a < ymdKey b

/-- Days from the civil epoch 1970-01-01 (proleptic Gregorian), using floor
division so negative years are handled uniformly. -/
def daysFromCivil (y : Int) (mo d : Nat) : Int :=
  let y' := if mo ≤ 2 then y - 1 else y
  let era := Int.fdiv y' 400
  let yoe := y' - era * 400
  let mp := ((mo : Int) + 9) % 12
  let doy := Int.fdiv (153 * mp + 2) 5 + (d : Int) - 1
  let doe := yoe * 365 + Int.fdiv yoe 4 - Int.fdiv yoe 100 + doy
  era * 146097 + doe - 719468

/-- Instant (nanoseconds since the Unix epoch, UTC) of a civil datetime. -/
def dtInstant (y mo d h mi s : Nat) (ns : Nat) : Int :=
  (daysFromCivil (y : Int) mo d * 86400 + (h : Int) * 3600 + (mi : Int) * 60 + (s : Int)) *
    1000000000 + (ns : Int)

/-- Consume exactly `k` decimal digits. -/
def splitDigits (k : Nat) (s : Str) : Option (Nat × Str) :=
  let pre := s.take k
  if pre.length = k ∧ pre.all Char.isDigit then
    some ((parseDigitsAux pre 0).getD 0, s.drop k)
  else none

/-- Consume one expected character. -/
def expectChar (c : Char) : Str → Option Str
  | x :: rest => if x = c then some rest else none
  | [] => none

/-- Consume `YYYY-MM-DDTHH:MM:SS` with Go's range checks. -/
def parseCivil (s : Str) : Option ((Nat × Nat × Nat) × (Nat × Nat × Nat) × Str) := do
  let (y, s1) ← splitDigits 4 s
  let s2 ← expectChar '-' s1
  let (mo, s3) ← splitDigits 2 s2
  let s4 ← expectChar '-' s3
  let (d, s5) ← splitDigits 2 s4
  let s6 ← expectChar 'T' s5
  let (h, s7) ← splitDigits 2 s6
  let s8 ← expectChar ':' s7
  let (mi, s9) ← splitDigits 2 s8
  let s10 ← expectChar ':' s9
  let (sec, s11) ← splitDigits 2 s10
  if 1 ≤ mo ∧ mo ≤ 12 ∧ 1 ≤ d ∧ d ≤ daysInMonth y mo ∧ h ≤ 23 ∧ mi ≤ 59 ∧ sec ≤ 59 then
    pure ((y, mo, d), (h, mi, sec), s11)
  else none

/-- Consume a trailing zone: `Z` or `±HH:MM`; returns the offset in
seconds east and requires end of input. -/
def parseZoneEnd : Str → Option Int
  | ['Z'] => some 0
  | sgn :: rest =>
    if sgn = '+' ∨ sgn = '-' then
      match splitDigits 2 rest with
      | some (hh, r1) =>
        match expectChar ':' r1 with
        | some r2 =>
          match splitDigits 2 r2 with
          | some (mm, r3) =>
            if r3 = [] ∧ hh ≤ 23 ∧ mm ≤ 59 then
              let off : Int := (hh : Int) * 3600 + (mm : Int) * 60
              some (if sgn = '-' then -off else off)
            else none
          | none => none
        | none => none
      | none => none
    else none
  | [] => none

/-- Model of Go `time.Parse` with the layout
`2006-01-02T15:04:05.000Z07:00`: exactly three fractional digits required.
Returns the instant in nanoseconds. -/
def parseRFC3339Ext (s : Str) : Option Int := do
  let (cd, ct, s1) ← parseCivil s
  let s2 ← expectChar '.' s1
  let (ms, s3) ← splitDigits 3 s2
  let off ← parseZoneEnd s3
  pure (dtInstant cd.1 cd.2.1 cd.2.2 ct.1 ct.2.1 ct.2.2 (ms * 1000000) - off * 1000000000)

/-- Model of Go `time.Parse(time.RFC3339, s)`: no fraction in the layout,
but `time.Parse` accepts an optional fraction of up to nine digits after
the seconds. -/
def parseRFC3339 (s : Str) : Option Int := do
  let (cd, ct, s1) ← parseCivil s
  match s1 with
  | '.' :: rest =>
    let frac := rest.takeWhile Char.isDigit
    if frac = [] ∨ frac.length > 9 then none
    else do
      let ns := ((parseDigitsAux frac 0).getD 0) * 10 ^ (9 - frac.length)
      let off ← parseZoneEnd (rest.dropWhile Char.isDigit)
      pure (dtInstant cd.1 cd.2.1 cd.2.2 ct.1 ct.2.1 ct.2.2 ns - off * 1000000000)
  | _ => do
    let off ← parseZoneEnd s1
    pure (dtInstant cd.1 cd.2.1 cd.2.2 ct.1 ct.2.1 ct.2.2 0 - off * 1000000000)

/-- The extended-then-plain parse cascade used by both the validator and
the generator (src/utils/constraints.go:203-213, 557-570). -/
def parseDTBoth (s : Str) : Option Int :=
  match parseRFC3339Ext s with
  | some t => some t
  | none => parseRFC3339 s

/-- The parts of Go's `time` package whose behaviour depends on
caller-supplied layouts or the system timezone database: formatting an
instant with a layout, checking that a layout/value pair parses, and
loading an IANA zone (as an instant-to-offset-seconds function).  Every
theorem quantifies over this structure. -/
structure TimeLib where
  formatDate : Str → Int → Str
  parseLayoutOk : Str → Str → Bool
  loadLoc : Str → Option (Int → Int)

/-- Embedding of `parseTimezoneOffset` (src/utils/constraints.go:706-733):
offset in seconds. -/
def parseTimezoneOffset (off : Str) : Option Int :=
  match off with
  | [s0, h1, h2, col, m1, m2] =>
    if (col = ':') ∧ (s0 = '+' ∨ s0 = '-') ∧
        h1.isDigit ∧ h2.isDigit ∧ m1.isDigit ∧ m2.isDigit then
      let hours := (h1.toNat - 48) * 10 + (h2.toNat - 48)
      let minutes := (m1.toNat - 48) * 10 + (m2.toNat - 48)
      if hours ≤ 23 ∧ minutes ≤ 59 then
        let off : Int := (hours : Int) * 3600 + (minutes : Int) * 60
        some (if s0 = '-' then -off else off)
      else none
    else none
  | _ => none

/-- Go `strings.TrimSpace(x) == ""` (ASCII whitespace modelled). -/
def isBlank (s : Str) : Bool :=
  s.all fun c => c == ' ' || c == '\t' || c == '\n' || c == '\r'

/-- A trivial instantiation of the time-library parameters. -/
def tl0 : TimeLib := ⟨fun _ _ => [], fun _ _ => false, fun _ => none⟩

/-- Two-digit zero pad. -/
def pad2 (n : Nat) : Str := padLeft0 2 (natDigits n)

/-- Three-digit zero pad. -/
def pad3 (n : Nat) : Str := padLeft0 3 (natDigits n)

/-- Four-digit zero pad. -/
def pad4 (n : Nat) : Str := padLeft0 4 (natDigits n)

/-- Civil date from days since the epoch (proleptic Gregorian). -/
def civilFromDays (z : Int) : Int × Nat × Nat :=
  let z' := z + 719468
  let era := Int.fdiv z' 146097
  let doe := (z' - era * 146097).toNat
  let yoe := (doe - doe / 1460 + doe / 36524 - doe / 146096) / 365
  let y : Int := (yoe : Int) + era * 400
  let doy := doe - (365 * yoe + yoe / 4 - yoe / 100)
  let mp := (5 * doy + 2) / 153
  let d := doy - (153 * mp + 2) / 5 + 1
  let mo := if mp < 10 then mp + 3 else mp - 9
  (if mo ≤ 2 then y + 1 else y, mo, d)

/-- Rendering of an instant in a zone with the layout
`2006-01-02T15:04:05.000Z07:00` (Go prints `Z` for a zero offset). -/
def formatExtDT (t : Int) (offFn : Int → Int) : Str :=
  let off := offFn t
  let nsPerDay : Int := 86400 * 1000000000
  let localNs := t + off * 1000000000
  let days := Int.fdiv localNs nsPerDay
  let dayNs := (localNs - days * nsPerDay).toNat
  let c := civilFromDays days
  let secs := dayNs / 1000000000
  let ymd := (if c.1 < 0 then '-' :: pad4 c.1.natAbs else pad4 c.1.toNat) ++
    '-' :: pad2 c.2.1 ++ '-' :: pad2 c.2.2
  let hms := pad2 (secs / 3600) ++ ':' :: pad2 (secs % 3600 / 60) ++ ':' :: pad2 (secs % 60)
  let ms := pad3 (dayNs % 1000000000 / 1000000)
  let zone :=
    if off = 0 then ['Z']
    else (if off < 0 then '-' else '+') ::
      (pad2 (off.natAbs / 3600) ++ ':' :: pad2 (off.natAbs % 3600 / 60))
  ymd ++ 'T' :: (hms ++ '.' :: (ms ++ zone))

/-- The zone resolution shared by both branches of `generateDatetimeValue`
(src/utils/constraints.go:575-597, 608-630): UTC, a fixed `±HH:MM` offset,
or an IANA zone from the library (falling back to UTC). -/
def targetTimezone (tl : TimeLib) (tz : Str) : Int → Int :=
  if tz ≠ [] then
    if tz = "UTC".data then fun _ => 0
    else if tz.head? = some '+' ∨ tz.head? = some '-' then
      match parseTimezoneOffset tz with
      | some off => fun _ => off
      | none => fun _ => 0
    else
      match tl.loadLoc tz with
      | some f => f
      | none => fun _ => 0
  else fun _ => 0

/-- The instant of midnight UTC of a civil date. -/
def ymdInstant (x : Nat × Nat × Nat) : Int := dtInstant x.1 x.2.1 x.2.2 0 0 0 0

/-- Embedding of `generateDateValue` (src/utils/constraints.go:517-545):
parse errors are ignored, a zero min/max falls back to the 2020-01-01 /
2030-12-31 defaults, an inverted or empty window returns the formatted
minimum, and otherwise a uniform instant below the maximum is drawn. -/
def generateDateValue (tl : TimeLib) (c : FieldConstraint) (r : Rng) : Str × Rng :=
  let format := if c.format = [] then "20060102".data else c.format
  let minD0 := (parseYMD c.minDate).getD zeroYMD
  let maxD0 := (parseYMD c.maxDate).getD zeroYMD
  let minD := if minD0 = zeroYMD then (2020, 1, 1) else minD0
  let maxD := if maxD0 = zeroYMD then (2030, 12, 31) else maxD0
  if ymdLt maxD minD ∨ maxD = minD then (tl.formatDate format (ymdInstant minD), r)
  else
    let dur : Int := ymdInstant maxD - ymdInstant minD
    let (v, r1) := (randInt63n dur r).getD (0, r)
    (tl.formatDate format (ymdInstant minD + v), r1)

/-- Embedding of `generateDatetimeValue` (src/utils/constraints.go:548-637):
the extended-then-plain RFC 3339 parse cascade, the default 2020..2030
window, the inverted-or-equal shortcut returning the formatted minimum, and
the uniform draw of up to `diff` nanoseconds otherwise. -/
def generateDatetimeValue (tl : TimeLib) (c : FieldConstraint) (r : Rng) : Str × Rng :=
  let minDef := dtInstant 2020 1 1 0 0 0 0
  let maxDef := dtInstant 2030 12 31 23 59 59 999000000
  let minDT :=
    if c.minDatetime ≠ [] then (parseDTBoth c.minDatetime).getD minDef else minDef
  let maxDT :=
    if c.maxDatetime ≠ [] then (parseDTBoth c.maxDatetime).getD maxDef else maxDef
  if maxDT < minDT ∨ maxDT = minDT then
    (formatExtDT minDT (targetTimezone tl c.timezone), r)
  else
    let diff := maxDT - minDT
    let (v, r1) := (randInt63n (diff + 1) r).getD (0, r)
    (formatExtDT (minDT + v) (targetTimezone tl c.timezone), r1)

/-- Embedding of `generateIntegerValue` (src/utils/constraints.go:819-842):
float bounds truncated to int, defaults 1..100, inverted window returns the
minimum. -/
def generateIntegerValue (c : FieldConstraint) (r : Rng) : Int × Rng :=
  let mn : Int := match c.min with | some v => Dec.trunc v | none => 1
  let mx : Int := match c.max with | some v => Dec.trunc v | none => 100
  if mx < mn then (mn, r)
  else if mx = mn then (mn, r)
  else
    let (v, r1) := randIntn (mx - mn + 1).toNat r
    (mn + (v : Int), r1)

/-- Embedding of `applyFloatPrecision` (src/utils/constraints.go:877-886):
`float64(int(value*10^p + 0.5)) / 10^p` with Go `int` truncation toward
zero; a negative precision yields multiplier 1 (the Go loop runs zero
times). -/
def applyFloatPrecision (value : Dec) (precision : Int) : Dec :=
  let p : Nat := precision.toNat
  Dec.norm ⟨Dec.trunc (Dec.add (Dec.mul value ⟨10 ^ p, 0⟩) decHalf), p⟩

/-- Embedding of `generateFloatValue` (src/utils/constraints.go:845-874):
defaults 0.01..999.99 and precision 2; an inverted or empty window returns
the minimum passed through `applyFloatPrecision`. -/
def generateFloatValue (c : FieldConstraint) (r : Rng) : Dec × Rng :=
  let mn := c.min.getD ⟨1, 2⟩
  let mx := c.max.getD ⟨99999, 2⟩
  let precision := c.precision.getD 2
  if Dec.blt mx mn then (applyFloatPrecision mn precision, r)
  else if Dec.beqv mx mn then (applyFloatPrecision mn precision, r)
  else
    let (u, r1) := randFloat64 r
    (applyFloatPrecision (Dec.add mn (Dec.mul u (Dec.sub mx mn))) precision, r1)

/-- Default surname pool of `generateChineseName`
(src/utils/constraints.go:739). -/
def defaultFirstNames : List Str := ["张", "王", "李", "赵", "刘"].map String.data

/-- Default given-name pool of `generateChineseName`
(src/utils/constraints.go:740). -/
def defaultLastNames : List Str := ["伟", "芳", "娜", "敏", "静"].map String.data

/-- Embedding of `generateChineseName` (src/utils/constraints.go:736-749).
`randIntn` models `rand.Intn` only for positive list lengths; a config with
nonempty first names but empty last names would panic in Go and is outside
every theorem. -/
def generateChineseName (cfg : Option ConstraintConfig) (r : Rng) : Str × Rng :=
  let defaultPath := fun (r : Rng) =>
    let (i, r1) := randIntn defaultFirstNames.length r
    let (j, r2) := randIntn defaultLastNames.length r1
    (defaultFirstNames.getD i [] ++ defaultLastNames.getD j [], r2)
  match cfg with
  | none => defaultPath r
  | some c =>
    if c.builtinData.firstNames.length = 0 then defaultPath r
    else
      let (i, r1) := randIntn c.builtinData.firstNames.length r
      let (j, r2) := randIntn c.builtinData.lastNames.length r1
      (c.builtinData.firstNames.getD i [] ++ c.builtinData.lastNames.getD j [], r2)

/-- Embedding of `generateEmail` (src/utils/constraints.go:763-776). -/
def generateEmail (cfg : Option ConstraintConfig) (r : Rng) : Str × Rng :=
  let defaults := ["qq.com", "163.com", "126.com", "gmail.com", "sina.com"].map String.data
  let domains :=
    match cfg with
    | some c => if c.builtinData.emailDomains.length > 0 then c.builtinData.emailDomains
        else defaults
    | none => defaults
  let usernames := ["user", "demo", "test", "admin", "guest"].map String.data
  let (i, r1) := randIntn usernames.length r
  let (n, r2) := randIntn 1000 r1
  let (j, r3) := randIntn domains.length r2
  (usernames.getD i [] ++ natDigits n ++ '@' :: domains.getD j [], r3)

/-- Embedding of `generateChineseAddress` (src/utils/constraints.go:779-794). -/
def generateChineseAddress (cfg : Option ConstraintConfig) (r : Rng) : Str × Rng :=
  let defaults :=
    ["北京市朝阳区建国门外大街1号",
      "上海市浦东新区陆家嘴环路1000号",
      "广州市天河区珠江新城花城大道85号",
      "深圳市南山区科技园南区深南大道9988号",
      "成都市高新区天府大道中段1388号"].map String.data
  let addresses :=
    match cfg with
    | some c => if c.builtinData.addresses.length > 0 then c.builtinData.addresses
        else defaults
    | none => defaults
  let (i, r1) := randIntn addresses.length r
  (addresses.getD i [], r1)

/-- Embedding of `generateIDCard` (src/utils/constraints.go:797-816). -/
def generateIDCard (r : Rng) : Str × Rng :=
  let areaCodes := ["110101", "310101", "440101", "500101", "510101"].map String.data
  let (a, r1) := randIntn areaCodes.length r
  let (yv, r2) := randIntn 26 r1
  let (mv, r3) := randIntn 12 r2
  let (dv, r4) := randIntn 28 r3
  let birthday := pad4 (1980 + yv) ++ pad2 (1 + mv) ++ pad2 (1 + dv)
  let (sv, r5) := randIntn 1000 r4
  let checkCodes := ["0", "1", "2", "3", "4", "5", "6", "7", "8", "9", "X"].map String.data
  let (cv, r6) := randIntn checkCodes.length r5
  (areaCodes.getD a [] ++ birthday ++ pad3 sv ++ checkCodes.getD cv [], r6)

/-- Embedding of `GenerateConstrainedValue` (src/utils/constraints.go:480-514):
a nil constraint or the keep-original flag or type returns the original
value untouched; otherwise dispatch on the constraint type, falling back to
the original value for unknown types. -/
def generateConstrainedValue (tl : TimeLib) (cfg : Option ConstraintConfig)
    (constraint : Option FieldConstraint) (originalValue : GoVal) (r : Rng) :
    GoVal × Rng :=
  match constraint with
  | none => (originalValue, r)
  | some c =>
    if c.keepOriginal = some true then (originalValue, r)
    else if c.type = "keep_original".data then (originalValue, r)
    else if c.type = "date".data then
      let (s, r1) := generateDateValue tl c r
      (.vStr s, r1)
    else if c.type = "datetime".data then
      let (s, r1) := generateDatetimeValue tl c r
      (.vStr s, r1)
    else if c.type = "chinese_name".data then
      let (s, r1) := generateChineseName cfg r
      (.vStr s, r1)
    else if c.type = "phone".data then
      let (s, r1) := generatePhoneNumber r
      (.vStr s, r1)
    else if c.type = "email".data then
      let (s, r1) := generateEmail cfg r
      (.vStr s, r1)
    else if c.type = "chinese_address".data then
      let (s, r1) := generateChineseAddress cfg r
      (.vStr s, r1)
    else if c.type = "id_card".data then
      let (s, r1) := generateIDCard r
      (.vStr s, r1)
    else if c.type = "integer".data then
      let (n, r1) := generateIntegerValue c r
      (.vInt n, r1)
    else if c.type = "float".data then
      let (q, r1) := generateFloatValue c r
      (.vFlt q, r1)
    else (originalValue, r)

/-- C7: a `keep_original` flag or constraint type always returns the
original value unchanged (and consumes no randomness), short-circuiting all
other generation logic. -/
theorem c7_keep_original_short_circuits (tl : TimeLib) (cfg : Option ConstraintConfig)
    (c : FieldConstraint) (orig : GoVal) (r : Rng)
    (h : c.keepOriginal = some true ∨ c.type = "keep_original".data) :
    generateConstrainedValue tl cfg (some c) orig r = (orig, r) := by
  rcases h with h | h
  · simp [generateConstrainedValue, h]
  · by_cases hk : c.keepOriginal = some true
    · simp [generateConstrainedValue, hk]
    · simp [generateConstrainedValue, hk, h]

/-- A constraint of type `keep_original`. -/
def kKeep : FieldConstraint := { emptyConstraint with type := "keep_original".data }

/-- Witness for `c7_keep_original_short_circuits` at a concrete constraint
and value. -/
theorem c7_keep_original_short_circuits_witness :
    (kKeep.keepOriginal = some true ∨ kKeep.type = "keep_original".data) ∧
    generateConstrainedValue tl0 none (some kKeep) (.vStr "x".data) rng0 =
      (.vStr "x".data, rng0) :=
  ⟨Or.inr rfl,
    c7_keep_original_short_circuits tl0 none kKeep (.vStr "x".data) rng0 (Or.inr rfl)⟩

/-- C6 (amended): generation with an inverted bound window stays total and
degrades to the minimum side without error, but not always to the literal
configured minimum: the integer generator returns the int-truncated min,
the float generator returns the min rounded to the effective precision,
and the date/datetime generators return the min formatted; none of them
consumes randomness or raises. -/
theorem c6_inverted_window_degrades (tl : TimeLib) (c : FieldConstraint) (r : Rng) :
    (∀ mn mx, c.min = some mn → c.max = some mx → Dec.trunc mx < Dec.trunc mn →
      generateIntegerValue c r = (Dec.trunc mn, r)) ∧
    (∀ mn mx, c.min = some mn → c.max = some mx → Dec.blt mx mn = true →
      generateFloatValue c r = (applyFloatPrecision mn (c.precision.getD 2), r)) ∧
    (∀ dmin dmax, parseYMD c.minDate = some dmin → parseYMD c.maxDate = some dmax →
      dmin ≠ zeroYMD → dmax ≠ zeroYMD → ymdLt dmax dmin = true →
      generateDateValue tl c r =
        (tl.formatDate (if c.format = [] then "20060102".data else c.format)
          (ymdInstant dmin), r)) ∧
    (∀ tmin tmax, c.minDatetime ≠ [] → c.maxDatetime ≠ [] →
      parseDTBoth c.minDatetime = some tmin → parseDTBoth c.maxDatetime = some tmax →
      tmax < tmin →
      generateDatetimeValue tl c r =
        (formatExtDT tmin (targetTimezone tl c.timezone), r)) := by
  refine ⟨?_, ?_, ?_, ?_⟩
  · intro mn mx h1 h2 h3
    simp [generateIntegerValue, h1, h2, h3]
  · intro mn mx h1 h2 h3
    simp [generateFloatValue, h1, h2, h3]
  · intro dmin dmax h1 h2 h3 h4 h5
    simp [generateDateValue, h1, h2, h3, h4, h5]
  · intro tmin tmax hne1 hne2 h1 h2 h3
    have hlt : tmax < tmin ∨ tmax = tmin := Or.inl h3
    simp [generateDatetimeValue, hne1, hne2, h1, h2, hlt, le_of_lt h3]

/-- A float constraint with max below min and a three-decimal minimum. -/
def kFloat : FieldConstraint :=
  { emptyConstraint with
      type := "float".data, min := some ⟨1234, 3⟩, max := some ⟨1, 0⟩ }

/-- Witness for `c6_inverted_window_degrades` at a concrete inverted float
window. -/
theorem c6_inverted_window_degrades_witness :
    (kFloat.min = some ⟨1234, 3⟩ ∧ kFloat.max = some ⟨1, 0⟩ ∧
      Dec.blt ⟨1, 0⟩ ⟨1234, 3⟩ = true) ∧
    generateFloatValue kFloat rng0 =
      (applyFloatPrecision ⟨1234, 3⟩ (kFloat.precision.getD 2), rng0) :=
  ⟨⟨rfl, rfl, by decide⟩,
    (c6_inverted_window_degrades tl0 kFloat rng0).2.1 ⟨1234, 3⟩ ⟨1, 0⟩ rfl rfl (by decide)⟩

/-- C6 counterexample: with min 1.234 and max 1.0 (an inverted window) the
float generator returns 1.23 — the minimum rounded to the default
precision 2 — which is not the configured minimum bound 1.234, refuting
the claim that the generator returns the minimum bound itself. -/
theorem c6_counterexample :
    kFloat.min = some ⟨1234, 3⟩ ∧
    (generateFloatValue kFloat rng0).1 = ⟨123, 2⟩ ∧
    Dec.beqv ⟨123, 2⟩ ⟨1234, 3⟩ = false := by
  refine ⟨rfl, by decide, by decide⟩

/-- ASCII-aware lowercasing (Go `strings.ToLower` on the field names the
claims use). -/
def toLowerStr (s : Str) : Str := s.map Char.toLower

/-- First-match association lookup in the constraint map. -/
def lookupConstraint (cfg : ConstraintConfig) (k : Str) : Option FieldConstraint :=
  match cfg.constraints.find? (fun kv => kv.1 == k) with
  | some kv => some kv.2
  | none => none

/-- Embedding of `FindFieldConstraint` (src/utils/constraints.go:445-477):
exact match, lowercase match, then the suffix after the last dot in both
case variants. -/
def findFieldConstraint (cfg : Option ConstraintConfig) (fieldName : Str) :
    Option FieldConstraint :=
  match cfg with
  | none => none
  | some c =>
    match lookupConstraint c fieldName with
    | some k => some k
    | none =>
      match lookupConstraint c (toLowerStr fieldName) with
      | some k => some k
      | none =>
        if fieldName.contains '.' then
          let simple := ((fieldName.splitOn '.').getLast?).getD []
          match lookupConstraint c simple with
          | some k => some k
          | none => lookupConstraint c (toLowerStr simple)
        else none

/-- The per-field type tags recorded by `GenerateTestCasesWithConstraints`
(src/unnamed/part_008:657-697); the float precision read off
`fmt.Sprintf("%v", v)` is the decimal-place count of the exact decimal. -/
def typeOf (v : GoVal) : Str :=
  match v with
  | .vInt _ => "int".data
  | .vFlt q =>
    let p := decPlaces q
    if p > 0 then "float:".data ++ natDigits p else "float".data
  | .vStr s =>
    if s.contains ',' then "array-string".data
    else if (goParseInt s).isSome then "int-string".data
    else
      match goParseFloat s with
      | some _ => "float-string:".data ++ natDigits (litDecPlaces s)
      | none => "string".data
  | .vBool _ => "bool".data
  | .vArr _ => "array".data
  | .vObj _ => "object".data
  | .vNull => "unknown".data

/-- The whole recorded type map. -/
def computeTypes (data : List (Str × GoVal)) : List (Str × Str) :=
  data.map fun kv => (kv.1, typeOf kv.2)

/-- One test case: iterate the captured keys in order
(src/unnamed/part_008:701-718); a missing key reads as Go `nil` (`vNull`),
and the constrained path consults `FindFieldConstraint` first. -/
def generateCaseFields (tl : TimeLib) (cfg : Option ConstraintConfig) (useC : Bool)
    (data : List (Str × GoVal)) :
    List Str → List (Str × GoVal) → Rng → Option (List (Str × GoVal) × Rng)
  | [], acc, r => some (acc, r)
  | k :: ks, acc, r =>
    let origVal := (mapLookup data k).getD .vNull
    if useC then
      match findFieldConstraint cfg k with
      | some c =>
        let p := generateConstrainedValue tl cfg (some c) origVal r
        generateCaseFields tl cfg useC data ks (mapInsert acc k p.1) p.2
      | none =>
        match generateVariation decHalf origVal r with
        | none => none
        | some (v, r1) => generateCaseFields tl cfg useC data ks (mapInsert acc k v) r1
    else
      match generateVariation decHalf origVal r with
      | none => none
      | some (v, r1) => generateCaseFields tl cfg useC data ks (mapInsert acc k v) r1

/-- The `count`-iteration loop of test-case generation
(src/unnamed/part_008:700-719). -/
def generateCasesLoop (tl : TimeLib) (cfg : Option ConstraintConfig) (useC : Bool)
    (data : List (Str × GoVal)) (keys : List Str) :
    Nat → Rng → Option (List (List (Str × GoVal)) × Rng)
  | 0, r => some ([], r)
  | n + 1, r =>
    match generateCaseFields tl cfg useC data keys [] r with
    | none => none
    | some (tc, r1) =>
      match generateCasesLoop tl cfg useC data keys n r1 with
      | none => none
      | some (rest, r2) => some (tc :: rest, r2)

/-- Embedding of `GenerateTestCasesWithConstraints`
(src/unnamed/part_008:641-725): resolve the key order from the package
state (falling back to, and publishing, the map's own keys), record the
type map, generate `count` cases, and store the type map in the package
state.  A `none` result is a propagated panic. -/
def generateTestCasesWithConstraints (tl : TimeLib) (cfg : Option ConstraintConfig)
    (data : List (Str × GoVal)) (count : Nat) (useC : Bool) (g : GlobalState)
    (r : Rng) : Option (List (List (Str × GoVal)) × GlobalState × Rng) :=
  let keys := if g.originalKeyOrder = [] then data.map Prod.fst else g.originalKeyOrder
  let g1 := if g.originalKeyOrder = [] then { g with originalKeyOrder := keys } else g
  let types := computeTypes data
  match generateCasesLoop tl cfg useC data keys count r with
  | none => none
  | some (cases, r1) => some (cases, { g1 with originalValueTypes := types }, r1)

/-- Embedding of `ConvertToJSONRows` (src/unnamed/part_008:1298-1322): a
`JSON` header row, then one single-column row per case holding its
serialization under the captured key order. -/
def convertToJSONRows (testCases : List (List (Str × GoVal))) (g : GlobalState) :
    List (List Str) :=
  match testCases with
  | [] => []
  | _ :: _ =>
    ["JSON".data] :: testCases.map fun tc => [customJSONMarshal tc g.originalKeyOrder]

/-- The parse → generate → serialize pipeline for one JSON positive example
(src/cmd/localGen.go:211-234), with the package-level state and the RNG
threaded; `none` is an aborted run (parse error or panic). -/
def pipelineJSON (tl : TimeLib) (cfg : Option ConstraintConfig) (useC : Bool)
    (t : JTop) (count : Nat) (g : GlobalState) (r : Rng) :
    Option (List (List Str)) × GlobalState × Rng :=
  match parseJSON t g with
  | (none, g1) => (none, g1, r)
  | (some data, g1) =>
    match generateTestCasesWithConstraints tl cfg data count useC g1 r with
    | none => (none, g1, r)
    | some (cases, g2, r1) => (some (convertToJSONRows cases g2), g2, r1)

/-- C2 counterexample: processing example B after example A is not
isolated.  A = `("{"a":1}")`, B = `("{}")`: B's key extraction finds no
keys, so `ParseJSON` leaves the previous example's `originalKeyOrder`
(`["a"]`) in the package state; generation then fabricates the stale field
from a nil read, and B's row after A is `("{"a":null}")` instead of the
`("{}")` B produces alone.  Both B runs receive the same RNG stream, so the
difference is exactly the leaked metadata. -/
theorem c2_counterexample :
    (pipelineJSON tl0 none false (.tObj []) 1
        (pipelineJSON tl0 none false (.tObj [("a".data, .jInt 1)]) 1 initState rng0).2.1
        rng0).1 = some [["JSON".data], ["\x7b\"a\":null\x7d".data]] ∧
    (pipelineJSON tl0 none false (.tObj []) 1 initState rng0).1 =
      some [["JSON".data], ["\x7b\x7d".data]] ∧
    (pipelineJSON tl0 none false (.tObj []) 1
        (pipelineJSON tl0 none false (.tObj [("a".data, .jInt 1)]) 1 initState rng0).2.1
        rng0).1 ≠
      (pipelineJSON tl0 none false (.tObj []) 1 initState rng0).1 := by
  refine ⟨by decide, by decide, by decide⟩

/-- Generation reads the incoming package state only through
`originalKeyOrder`: runs from states agreeing on it produce the same cases,
the same final key order and the same RNG. -/
theorem genTC_state_proj (tl : TimeLib) (cfg : Option ConstraintConfig)
    (data : List (Str × GoVal)) (count : Nat) (useC : Bool) (g g' : GlobalState)
    (r : Rng) (hk : g.originalKeyOrder = g'.originalKeyOrder) :
    (generateTestCasesWithConstraints tl cfg data count useC g r).map
        (fun x => (x.1, x.2.1.originalKeyOrder, x.2.2)) =
      (generateTestCasesWithConstraints tl cfg data count useC g' r).map
        (fun x => (x.1, x.2.1.originalKeyOrder, x.2.2)) := by
  unfold generateTestCasesWithConstraints
  rw [hk]
  cases hloop : generateCasesLoop tl cfg useC data
      (if g'.originalKeyOrder = [] then data.map Prod.fst else g'.originalKeyOrder)
      count r with
  | none => simp [hloop]
  | some x =>
    split_ifs with hcond <;> simp [hcond] at hloop <;> simp [hloop, hk]

/-- C2 (amended): isolation holds exactly when the later example's own key
extraction succeeds.  For every JSON input whose extracted key list is
nonempty, the pipeline's output is independent of the incoming package
state (given the same RNG stream), because `ParseJSON` fully overwrites
`originalKeyOrder` and the JSON serialization reads no other package
state; when extraction yields no keys (e.g. `("{}")`), the previous
example's key order leaks, as the counterexample shows. -/
theorem c2_amended_isolation (tl : TimeLib) (cfg : Option ConstraintConfig)
    (useC : Bool) (t : JTop) (count : Nat) (g g' : GlobalState) (r : Rng)
    (h : extractJSONKeys (renderTop t) ≠ []) :
    (pipelineJSON tl cfg useC t count g r).1 =
      (pipelineJSON tl cfg useC t count g' r).1 := by
  cases t with
  | tArr xs => rfl
  | tScalar l =>
    cases l with
    | jNull => exact absurd (by decide : extractJSONKeys (renderTop (.tScalar .jNull)) = []) h
    | jInt n => rfl
    | jFlt m p => rfl
    | jBool b => rfl
    | jStr s => rfl
    | jArr xs => rfl
    | jObj ms => rfl
  | tObj ms =>
    have hlen : 0 < (extractJSONKeys (renderTop (.tObj ms))).length :=
      List.length_pos.mpr h
    unfold pipelineJSON parseJSON goDecodeIntoMap
    simp only [hlen, if_pos]
    have hproj := genTC_state_proj tl cfg (decodeMembers ms []) count useC
      { g with originalKeyOrder := extractJSONKeys (renderTop (.tObj ms)) }
      { g' with originalKeyOrder := extractJSONKeys (renderTop (.tObj ms)) } r rfl
    cases hA : generateTestCasesWithConstraints tl cfg (decodeMembers ms []) count useC
        { g with originalKeyOrder := extractJSONKeys (renderTop (.tObj ms)) } r with
    | none =>
      rw [hA] at hproj
      cases hB : generateTestCasesWithConstraints tl cfg (decodeMembers ms []) count useC
          { g' with originalKeyOrder := extractJSONKeys (renderTop (.tObj ms)) } r with
      | none => simp
      | some y => rw [hB] at hproj; simp at hproj
    | some x =>
      rw [hA] at hproj
      cases hB : generateTestCasesWithConstraints tl cfg (decodeMembers ms []) count useC
          { g' with originalKeyOrder := extractJSONKeys (renderTop (.tObj ms)) } r with
      | none => rw [hB] at hproj; simp at hproj
      | some y =>
        rw [hB] at hproj
        simp at hproj
        obtain ⟨hcases, hkeys, -⟩ := hproj
        simp only
        unfold convertToJSONRows
        rw [hcases, hkeys]

/-- Witness for `c2_amended_isolation`: a polluted incoming state and the
fresh state give the same rows for an input with extractable keys. -/
theorem c2_amended_isolation_witness :
    (extractJSONKeys (renderTop (.tObj [("a".data, JLit.jInt 1)])) ≠ []) ∧
    (pipelineJSON tl0 none false (.tObj [("a".data, JLit.jInt 1)]) 1
        ⟨["z".data], [("z".data, "int".data)], "r".data, true, "d".data⟩ rng0).1 =
      (pipelineJSON tl0 none false (.tObj [("a".data, JLit.jInt 1)]) 1 initState rng0).1 :=
  ⟨by decide,
    c2_amended_isolation tl0 none false (.tObj [("a".data, JLit.jInt 1)]) 1
      ⟨["z".data], [("z".data, "int".data)], "r".data, true, "d".data⟩ initState rng0
      (by decide)⟩

/-- Go `strings.Contains`. -/
def strContains : Str → Str → Bool
  | [], pat => pat.isEmpty
  | c :: rest, pat => pat.isPrefixOf (c :: rest) || strContains rest pat

/-- Go `strings.Index`: first index where `pat` occurs. -/
def indexOfSub : Str → Str → Option Nat
  | [], pat => if pat.isEmpty then some 0 else none
  | c :: rest, pat =>
    if pat.isPrefixOf (c :: rest) then some 0
    else (indexOfSub rest pat).map (· + 1)

/-- RE2's `\s` class (tab, newline, form feed, carriage return, space). -/
def isWsCh (c : Char) : Bool :=
  c == ' ' || c == '\t' || c == '\n' || c == '\x0c' || c == '\r'

/-- Completion of the declaration regex `<\?xml[^>]*\?>` after a literal
`<?xml`: the run up to the first `>` must end in `?`. -/
def declMatchAt (t : Str) : Option Str :=
  match t.findIdx? (fun c => c = '>') with
  | none => none
  | some g =>
    if 1 ≤ g ∧ t.getD (g - 1) ' ' = '?' then some ("<?xml".data ++ t.take (g + 1))
    else none

/-- Leftmost match of `<\?xml[^>]*\?>` (the `FindString` of ParseXML,
src/unnamed/part_008:38-39). -/
def declFind : Str → Option Str
  | [] => none
  | c :: rest =>
    if ("<?xml".data).isPrefixOf (c :: rest) then
      match declMatchAt ((c :: rest).drop 5) with
      | some m => some m
      | none => declFind rest
    else declFind rest

/-- Completion of `<\?xml[^>]*>\s*<([^\s>/]+)[^>]*>` after a literal
`<?xml`: skip to the first `>`, skip whitespace, expect `<`, capture the
maximal run outside `\s>/` (nonempty), and require a later `>`. -/
def rootDeclMatchAt (t : Str) : Option Str :=
  match t.findIdx? (fun c => c = '>') with
  | none => none
  | some g =>
    match ((t.drop (g + 1)).dropWhile isWsCh) with
    | '<' :: v =>
      let grp := v.takeWhile fun c => !(isWsCh c || c == '>' || c == '/')
      if grp ≠ [] ∧ (v.drop grp.length).contains '>' then some grp else none
    | _ => none

/-- Leftmost match of the declaration-anchored root regex
(src/unnamed/part_008:67). -/
def rootScanAux : Str → Option Str
  | [] => none
  | c :: rest =>
    if ("<?xml".data).isPrefixOf (c :: rest) then
      match rootDeclMatchAt ((c :: rest).drop 5) with
      | some g => some g
      | none => rootScanAux rest
    else rootScanAux rest

/-- Completion of `<([^\s>/!?]+)[^>]*>` after a literal `<`. -/
def simpleMatchAt (v : Str) : Option Str :=
  let grp := v.takeWhile fun c => !(isWsCh c || c == '>' || c == '/' || c == '!' || c == '?')
  if grp ≠ [] ∧ (v.drop grp.length).contains '>' then some grp else none

/-- Leftmost match of the simple first-element regex
(src/unnamed/part_008:73). -/
def simpleFind : Str → Option Str
  | [] => none
  | c :: rest =>
    if c = '<' then
      match simpleMatchAt rest with
      | some g => some g
      | none => simpleFind rest
    else simpleFind rest

/-- The `^\s*<([^\s>/!?]+)[^>]*>` alternative of the key-extraction root
regex, anchored at position zero. -/
def alt2at0 (s : Str) : Option Str :=
  match s.dropWhile isWsCh with
  | '<' :: v => simpleMatchAt v
  | _ => none

/-- The alternation root regex of `extractXMLKeys`
(src/unnamed/part_008:112): at position zero the declaration-anchored
alternative is preferred, then the start-anchored simple alternative; at
later positions only the declaration-anchored alternative can match. -/
def extractRootRegex2 (s : Str) : Option Str :=
  match s with
  | [] => none
  | _ :: rest =>
    if ("<?xml".data).isPrefixOf s then
      match rootDeclMatchAt (s.drop 5) with
      | some g => some g
      | none =>
        match alt2at0 s with
        | some g => some g
        | none => rootScanAux rest
    else
      match alt2at0 s with
      | some g => some g
      | none => rootScanAux rest

/-- Advance past the next `>` (the Go `for ... != '>' ; pos++` idiom). -/
def skipToGtInclusive (s : Str) : Str :=
  match s.dropWhile (fun c => c ≠ '>') with
  | _ :: rest => rest
  | [] => []

/-- The direct-children scan loop of `extractXMLKeys`
(src/unnamed/part_008:142-209), driven by the remaining suffix; the fuel is
the content length plus one (the Go loop advances `pos` every iteration). -/
def extractChildLoop : Nat → Str → List Str → List Str
  | 0, _, keys => keys
  | fuel + 1, s, keys =>
    let s1 := s.dropWhile fun c => c == ' ' || c == '\n' || c == '\t' || c == '\r'
    match s1 with
    | [] => keys
    | c :: v =>
      if c = '<' then
        let tag := v.takeWhile fun ch => !(ch == ' ' || ch == '>' || ch == '/')
        if tag ≠ [] then
          let keys1 := if keys.contains tag then keys else keys ++ [tag]
          let s2 :=
            match v with
            | c2 :: _ =>
              if c2 ≠ '/' then
                let pat := "</".data ++ tag ++ ['>']
                match indexOfSub s1 pat with
                | some ix => s1.drop (ix + pat.length)
                | none => skipToGtInclusive s1
              else skipToGtInclusive s1
            | [] => skipToGtInclusive s1
          extractChildLoop fuel s2 keys1
        else extractChildLoop fuel v keys
      else extractChildLoop fuel v keys

/-- First match end of the root start tag `<root[^>]*>`. -/
def rootStartEnd (lit : Str) : Str → Nat → Option Nat
  | [], _ => none
  | c :: rest, i =>
    if lit.isPrefixOf (c :: rest) then
      match ((c :: rest).drop lit.length).findIdx? (fun ch => ch = '>') with
      | some g => some (i + lit.length + g + 1)
      | none => rootStartEnd lit rest (i + 1)
    else rootStartEnd lit rest (i + 1)

/-- Embedding of `extractXMLKeys` (src/unnamed/part_008:106-212): find the
root element, slice its content between the end of its start tag and the
start of its end tag, and collect first-seen direct-child tag names. -/
def extractXMLKeys (xmlStr : Str) : List Str :=
  match extractRootRegex2 xmlStr with
  | none => []
  | some rootElement =>
    match rootStartEnd ('<' :: rootElement) xmlStr 0 with
    | none => []
    | some sEnd =>
      match indexOfSub xmlStr ("</".data ++ rootElement ++ ['>']) with
      | none => []
      | some eStart =>
        let rootContent := (xmlStr.drop sEnd).take (eStart - sEnd)
        extractChildLoop (rootContent.length + 1) rootContent []

/-- The metadata capture of `ParseXML` (src/unnamed/part_008:32-92) on a
successfully decoded document: the declaration flag and literal, the root
element name, and the extracted key order.  `resultKeys` stands for the
keys of the decoded map, used only by the fallback when textual extraction
finds nothing (the third-party XML decode itself is not modelled; a decode
error would return before the root and key assignments). -/
def parseXMLMeta (xmlStr : Str) (resultKeys : List Str) (g : GlobalState) :
    GlobalState :=
  let hasDecl := strContains xmlStr "<?xml".data
  let g1 := { g with originalHasXMLDeclaration := hasDecl }
  let g2 :=
    if hasDecl then
      match declFind xmlStr with
      | some m => { g1 with originalXMLDeclaration := m }
      | none => g1
    else g1
  let g3 :=
    match rootScanAux xmlStr with
    | some root => { g2 with originalRootElementName := root }
    | none =>
      match simpleFind xmlStr with
      | some root =>
        if root ≠ "?xml".data then { g2 with originalRootElementName := root } else g2
      | none => g2
  let keys := extractXMLKeys xmlStr
  if keys ≠ [] then { g3 with originalKeyOrder := keys }
  else { g3 with originalKeyOrder := resultKeys }

/-- Embedding of `escapeXMLValue` (src/unnamed/part_008:1114-1121). -/
def escapeXMLValue (v : Str) : Str :=
  v.flatMap fun c =>
    if c = '&' then "&amp;".data
    else if c = '<' then "&lt;".data
    else if c = '>' then "&gt;".data
    else if c = '"' then "&quot;".data
    else if c = Char.ofNat 39 then "&apos;".data
    else [c]

/-- Tag-name cleaning of `buildXMLContent` (src/unnamed/part_008:1025-1026). -/
def cleanKey (k : Str) : Str :=
  k.map fun c => if c = ' ' ∨ c = '-' then '_' else c

mutual

/-- One `<key>value</key>` field of `buildXMLContent`
(src/unnamed/part_008:1028-1105). -/
def xmlField (ck : Str) : GoVal → Str
  | .vNull => '<' :: (ck ++ " />".data)
  | .vStr s => '<' :: (ck ++ '>' :: (escapeXMLValue s ++ "</".data ++ ck ++ ['>']))
  | .vInt n => '<' :: (ck ++ '>' :: (intChars n ++ "</".data ++ ck ++ ['>']))
  | .vFlt q => '<' :: (ck ++ '>' :: (custFloat q ++ "</".data ++ ck ++ ['>']))
  | .vBool b =>
    '<' :: (ck ++ '>' ::
      ((if b then "true".data else "false".data) ++ "</".data ++ ck ++ ['>']))
  | .vObj m =>
    let nested := xmlContentOfPairs m
    if isBlank nested then '<' :: (ck ++ " />".data)
    else '<' :: (ck ++ '>' :: (nested ++ "</".data ++ ck ++ ['>']))
  | .vArr xs => xmlArrItems ck xs

/-- The repeated sibling tags of an array value
(src/unnamed/part_008:1062-1101).  A nested array would hit Go's `%v`
default arm (a slice dump); the embedding renders it as further siblings —
that arm is reached by no theorem. -/
def xmlArrItems (ck : Str) : List GoVal → Str
  | [] => []
  | item :: rest =>
    (match item with
     | .vInt n => '<' :: (ck ++ '>' :: (intChars n ++ "</".data ++ ck ++ ['>']))
     | .vFlt q => '<' :: (ck ++ '>' :: (custFloat q ++ "</".data ++ ck ++ ['>']))
     | .vStr s =>
       '<' :: (ck ++ '>' :: (escapeXMLValue s ++ "</".data ++ ck ++ ['>']))
     | .vBool b =>
       '<' :: (ck ++ '>' ::
         ((if b then "true".data else "false".data) ++ "</".data ++ ck ++ ['>']))
     | .vObj m =>
       let nested := xmlContentOfPairs m
       if isBlank nested then '<' :: (ck ++ " />".data)
       else '<' :: (ck ++ '>' :: (nested ++ "</".data ++ ck ++ ['>']))
     | .vNull => '<' :: (ck ++ " />".data)
     | .vArr ys => xmlArrItems ck ys) ++ xmlArrItems ck rest

/-- The concatenated fields of a nested map, one per member pair.  Nested
levels in Go iterate the map's keys and look each key up; on the
duplicate-free maps the decoder produces this equals iterating the pairs
directly. -/
def xmlPairs : List (Str × GoVal) → Str
  | [] => []
  | (k, v) :: rest => xmlField (cleanKey k) v ++ xmlPairs rest

/-- A nested map's content: a single space before the first field
(src/unnamed/part_008:1019-1021), nothing when the map is empty. -/
def xmlContentOfPairs : List (Str × GoVal) → Str
  | [] => []
  | m => ' ' :: xmlPairs m

end

/-- Embedding of `buildXMLContent` at the top level
(src/unnamed/part_008:998-1109): a nonempty captured key order wins over
the map's own keys, missing keys are skipped, and a single space precedes
the first emitted field. -/
def buildXMLContent (keyOrder : List Str) (data : List (Str × GoVal)) : Str :=
  let keys := if keyOrder ≠ [] then keyOrder else data.map Prod.fst
  let parts := keys.filterMap fun k =>
    (mapLookup data k).map fun v => xmlField (cleanKey k) v
  match parts with
  | [] => []
  | _ :: _ => ' ' :: parts.flatten

/-- The default declaration emitted when the source contained `<?xml` but
the prologue regex found no match (src/unnamed/part_008:974). -/
def defaultXMLDecl : Str := "<?xml version=\"1.0\" encoding=\"UTF-8\"?>".data

/-- The root-wrapped body of `convertMapToXML` (src/unnamed/part_008:978-992). -/
def xmlBody (g : GlobalState) (data : List (Str × GoVal)) : Str :=
  let rootElement :=
    if g.originalRootElementName = [] then "root".data else g.originalRootElementName
  let xmlContent := buildXMLContent g.originalKeyOrder data
  if isBlank xmlContent then '<' :: (rootElement ++ " />".data)
  else '<' :: (rootElement ++ '>' :: (xmlContent ++ "</".data ++ rootElement ++ ['>']))

/-- Embedding of `convertMapToXML` (src/unnamed/part_008:964-995). -/
def convertMapToXML (g : GlobalState) (data : List (Str × GoVal)) : Str :=
  let declPart :=
    if g.originalHasXMLDeclaration then
      (if g.originalXMLDeclaration ≠ [] then g.originalXMLDeclaration
       else defaultXMLDecl) ++ ['\n']
    else []
  declPart ++ xmlBody g data

/-- C8 counterexample: a source with `<?xml` inside a comment but no
prologue.  `("<user><!-- <?xml --><name>test</name></user>")` contains no
`<?xml ...?>` prologue (it does not start with `<?xml` and the prologue
regex finds no match anywhere), yet every serialized variant BEGINS with a
prologue — the default UTF-8 declaration — because the code keys the
decision on a substring search; moreover the captured root element is
`name`, not the source's root `user`, because the declaration-anchored
root regex fires on the comment text. -/
theorem c8_counterexample :
    ("<?xml".data).isPrefixOf ("<user><!-- <?xml --><name>test</name></user>".data) = false ∧
    declFind ("<user><!-- <?xml --><name>test</name></user>".data) = none ∧
    ("<?xml".data).isPrefixOf
      (convertMapToXML
        (parseXMLMeta ("<user><!-- <?xml --><name>test</name></user>".data) [] initState)
        [("name".data, .vStr "test".data)]) = true ∧
    (parseXMLMeta ("<user><!-- <?xml --><name>test</name></user>".data) []
        initState).originalRootElementName = "name".data ∧
    simpleFind ("<user><!-- <?xml --><name>test</name></user>".data) = some "user".data := by
  refine ⟨by decide, by decide, by decide, by decide, by decide⟩

/-- A head of a nonempty `takeWhile` satisfies the predicate. -/
theorem takeWhile_head {p : Char → Bool} : ∀ (l : Str) (c : Char) (cs : Str),
    l.takeWhile p = c :: cs → p c = true := by
  intro l c cs h
  cases l with
  | nil => exact List.noConfusion h
  | cons a as =>
    rw [List.takeWhile] at h
    cases hp : p a with
    | false => rw [hp] at h; exact List.noConfusion h
    | true =>
      rw [hp] at h
      cases h
      exact hp

/-- The declaration-anchored root regex can only match where `<?xml`
occurs, so a match implies the substring is present. -/
theorem rootScanAux_contains : ∀ s g, rootScanAux s = some g →
    strContains s "<?xml".data = true := by
  intro s
  induction s with
  | nil => intro g h; exact Option.noConfusion h
  | cons c rest ih =>
    intro g h
    rw [rootScanAux] at h
    rw [strContains]
    split at h
    · rename_i hpre
      simp [hpre]
    · rename_i hpre
      cases hrs : rootScanAux rest with
      | none => rw [hrs] at h; exact Option.noConfusion h
      | some g2 =>
        rw [ih g2 hrs]
        simp

/-- A group captured by the simple root regex starts with a character
outside the excluded class (in particular, not `?`). -/
theorem simpleFind_head : ∀ s g, simpleFind s = some g →
    ∃ c cs, g = c :: cs ∧
      (isWsCh c || c == '>' || c == '/' || c == '!' || c == '?') = false := by
  intro s
  induction s with
  | nil => intro g h; exact Option.noConfusion h
  | cons a rest ih =>
    intro g h
    rw [simpleFind] at h
    split at h
    · split at h
      · rename_i g2 hm
        cases h
        simp only [simpleMatchAt] at hm
        split at hm
        · rename_i hcond
          obtain ⟨hne, _⟩ := hcond
          cases hm
          cases hg : rest.takeWhile
              (fun c => !(isWsCh c || c == '>' || c == '/' || c == '!' || c == '?')) with
          | nil => exact absurd hg hne
          | cons c cs =>
            refine ⟨c, cs, rfl, ?_⟩
            have := takeWhile_head rest c cs hg
            simpa using this
        · exact Option.noConfusion hm
      · exact ih g h
    · exact ih g h

/-- A prologue match starts with the literal `<?xml` (so it is nonempty). -/
theorem declFind_shape : ∀ s d, declFind s = some d →
    ∃ t, d = "<?xml".data ++ t := by
  intro s
  induction s with
  | nil => intro d h; exact Option.noConfusion h
  | cons c rest ih =>
    intro d h
    rw [declFind] at h
    split at h
    · cases hm : declMatchAt ((c :: rest).drop 5) with
      | none => rw [hm] at h; exact ih d h
      | some m =>
        rw [hm] at h
        cases h
        unfold declMatchAt at hm
        split at hm
        · exact Option.noConfusion hm
        · split at hm
          · cases hm
            exact ⟨_, rfl⟩
          · exact Option.noConfusion hm
    · exact ih d h

/-- The declaration flag captured by `ParseXML` is exactly the substring
test. -/
theorem parseXMLMeta_hasDecl (src : Str) (ks : List Str) (g : GlobalState) :
    (parseXMLMeta src ks g).originalHasXMLDeclaration =
      strContains src "<?xml".data := by
  simp only [parseXMLMeta]
  repeat' split
  all_goals simp_all

/-- The captured declaration literal: the regex match when the flag is on
and a match exists, otherwise untouched. -/
theorem parseXMLMeta_decl (src : Str) (ks : List Str) (g : GlobalState) :
    (parseXMLMeta src ks g).originalXMLDeclaration =
      (if strContains src "<?xml".data then
        match declFind src with
        | some m => m
        | none => g.originalXMLDeclaration
      else g.originalXMLDeclaration) := by
  simp only [parseXMLMeta]
  repeat' split
  all_goals simp_all

/-- The captured root element name: the declaration-anchored regex first,
then the simple regex (whose group can never be `?xml`), otherwise
untouched. -/
theorem parseXMLMeta_root (src : Str) (ks : List Str) (g : GlobalState) :
    (parseXMLMeta src ks g).originalRootElementName =
      (match rootScanAux src with
      | some root => root
      | none =>
        match simpleFind src with
        | some root =>
          if root ≠ "?xml".data then root else g.originalRootElementName
        | none => g.originalRootElementName) := by
  simp only [parseXMLMeta]
  repeat' split
  all_goals simp_all

/-- A string starting `<` then a non-`?` character is not prologue-prefixed. -/
theorem listPrefixQ (r : Char) (rest : Str) (hne : r ≠ '?') :
    ("<?xml".data).isPrefixOf ('<' :: r :: rest) = false := by
  have hb : ('?' == r) = false := beq_eq_false_iff_ne.mpr (Ne.symm hne)
  show (('<' == '<') && (('?' == r) && List.isPrefixOf ("xml".data) rest)) = false
  rw [hb]
  simp

/-- If every possible captured root name avoids `?` as first character, the
root-wrapped body never starts with the prologue literal. -/
theorem xmlBody_prefix_false (g : GlobalState) (data : List (Str × GoVal))
    (h : ∀ c cs, g.originalRootElementName = c :: cs → c ≠ '?') :
    ("<?xml".data).isPrefixOf (xmlBody g data) = false := by
  cases hr : g.originalRootElementName with
  | nil =>
    simp only [xmlBody, hr]
    split
    · exact listPrefixQ 'r' ("oot />".data) (by decide)
    · exact listPrefixQ 'r' _ (by decide)
  | cons c cs =>
    have hc : c ≠ '?' := h c cs hr
    simp only [xmlBody, hr]
    have hcons : (c :: cs ≠ ([] : Str)) := by simp
    simp only [if_neg hcons]
    split
    · exact listPrefixQ c _ hc
    · exact listPrefixQ c _ hc

/-- C8 (amended): the prologue decision of the serializer is keyed on a
substring search, not on the presence of an actual prologue.  (a) When the
source nowhere contains the five characters `<?xml`, the serialized output
is exactly the root-wrapped body and carries no prologue prefix; (b) when
it does contain them and the prologue regex matches, the match is emitted
verbatim before the body; (c) when it contains them but the prologue regex
finds no match — e.g. `<?xml` inside a comment — a default UTF-8
declaration is fabricated even though the source had no prologue
(src/unnamed/part_008:37-44, 967-976). -/
theorem c8_prologue_behavior (src : Str) (ks : List Str)
    (data : List (Str × GoVal)) :
    (strContains src "<?xml".data = false →
      convertMapToXML (parseXMLMeta src ks initState) data =
        xmlBody (parseXMLMeta src ks initState) data ∧
      ("<?xml".data).isPrefixOf
        (convertMapToXML (parseXMLMeta src ks initState) data) = false) ∧
    (∀ d, strContains src "<?xml".data = true → declFind src = some d →
      convertMapToXML (parseXMLMeta src ks initState) data =
        d ++ '\n' :: xmlBody (parseXMLMeta src ks initState) data) ∧
    (strContains src "<?xml".data = true → declFind src = none →
      convertMapToXML (parseXMLMeta src ks initState) data =
        defaultXMLDecl ++ '\n' :: xmlBody (parseXMLMeta src ks initState) data) := by
  refine ⟨?_, ?_, ?_⟩
  · intro hc
    have hflag : (parseXMLMeta src ks initState).originalHasXMLDeclaration = false := by
      rw [parseXMLMeta_hasDecl, hc]
    have hconv : convertMapToXML (parseXMLMeta src ks initState) data =
        xmlBody (parseXMLMeta src ks initState) data := by
      simp only [convertMapToXML, hflag]
      simp
    refine ⟨hconv, ?_⟩
    rw [hconv]
    apply xmlBody_prefix_false
    intro c cs hcc
    rw [parseXMLMeta_root] at hcc
    cases hrs : rootScanAux src with
    | some g2 =>
      have hcontra := rootScanAux_contains src g2 hrs
      rw [hc] at hcontra
      exact Bool.noConfusion hcontra
    | none =>
      rw [hrs] at hcc
      cases hsf : simpleFind src with
      | none =>
        rw [hsf] at hcc
        exact List.noConfusion hcc
      | some root =>
        rw [hsf] at hcc
        obtain ⟨c0, cs0, hr0, hcls⟩ := simpleFind_head src root hsf
        simp only [Bool.or_eq_false_iff, beq_eq_false_iff_ne] at hcls
        have hne : root ≠ "?xml".data := by
          rw [hr0]
          intro heq
          have hc0 : c0 = '?' := by
            have := congrArg List.head? heq
            simpa using this
          exact hcls.2 hc0
        have hcc2 : (if root ≠ "?xml".data then root
            else initState.originalRootElementName) = c :: cs := hcc
        rw [if_pos hne] at hcc2
        rw [hr0] at hcc2
        cases hcc2
        exact hcls.2
  · intro d hc hd
    have hflag : (parseXMLMeta src ks initState).originalHasXMLDeclaration = true := by
      rw [parseXMLMeta_hasDecl, hc]
    have hdeq : (parseXMLMeta src ks initState).originalXMLDeclaration = d := by
      rw [parseXMLMeta_decl, hc, hd]
      simp
    obtain ⟨t, ht⟩ := declFind_shape src d hd
    have hdne : d ≠ [] := by rw [ht]; simp
    simp only [convertMapToXML, hflag, hdeq]
    simp [hdne]
  · intro hc hd
    have hflag : (parseXMLMeta src ks initState).originalHasXMLDeclaration = true := by
      rw [parseXMLMeta_hasDecl, hc]
    have hdeq : (parseXMLMeta src ks initState).originalXMLDeclaration = [] := by
      rw [parseXMLMeta_decl, hc, hd]
      simp [initState]
    simp only [convertMapToXML, hflag, hdeq]
    simp

/-- Witness for C8: a prologue-free source really yields a prologue-free
serialization. -/
theorem c8_prologue_behavior_witness :
    strContains ("<a>1</a>".data) "<?xml".data = false ∧
    ("<?xml".data).isPrefixOf
      (convertMapToXML (parseXMLMeta ("<a>1</a>".data) [] initState) []) = false :=
  ⟨by decide,
   ((c8_prologue_behavior ("<a>1</a>".data) [] []).1 (by decide)).2⟩

/-- Characters deleted by the whitespace stripping of `extractJSONKeys`. -/
def noWS (c : Char) : Bool := !(c == ' ' || c == '\n' || c == '\t')

/-- Plain string characters: outside every class the key scanner, the
whitespace stripper and the marshaller's escaping react to. -/
def plainCh (c : Char) : Bool :=
  !(c == '"' || c == '\\' || c == ':' || c == ',' || c == '[' || c == ']' ||
    c == obrace || c == cbrace || c == ' ' || c == '\n' || c == '\t')

/-- Characters inert to the scanner while inside a quoted string. -/
def qinert (c : Char) : Bool := !(c == '"' || c == '\\')

/-- Characters inert to the scanner outside quotes. -/
def inert (c : Char) : Bool :=
  !(c == '"' || c == '\\' || c == ':' || c == ',' || c == '[' || c == ']' ||
    c == obrace || c == cbrace)

/-- Source literals covered by the flat-object round-trip theorem:
integers in `int64` range, booleans, nulls, and plain strings. -/
def flatLit : JLit → Bool
  | .jInt n => decide (minInt64 ≤ n ∧ n ≤ maxInt64)
  | .jBool _ => true
  | .jNull => true
  | .jStr s => s.all plainCh
  | _ => false

/-- The previous-character tracker after scanning a run `cs`. -/
def prevAfter (cs : Str) (prev : Option Char) : Option Char :=
  match cs.getLast? with
  | some c => some c
  | none => prev

theorem plainCh_inert (c : Char) (h : plainCh c = true) : inert c = true := by
  simp [plainCh] at h
  simp [inert, h]

theorem plainCh_qinert (c : Char) (h : plainCh c = true) : qinert c = true := by
  simp [plainCh] at h
  simp [qinert, h]

theorem plainCh_noWS (c : Char) (h : plainCh c = true) : noWS c = true := by
  simp [plainCh] at h
  simp [noWS, h]

theorem qinert_ne_bs (c : Char) (h : qinert c = true) : c ≠ '\\' := by
  simp [qinert] at h
  exact h.2

theorem inert_ne_bs (c : Char) (h : inert c = true) : c ≠ '\\' := by
  simp [inert] at h
  tauto

theorem prevAfter_cons (c : Char) (cs : Str) (prev : Option Char) :
    prevAfter (c :: cs) prev = prevAfter cs (some c) := by
  cases cs with
  | nil => simp [prevAfter]
  | cons d ds => simp [prevAfter, List.getLast?]

theorem prevAfter_ne_bs (cs : Str) (prev : Option Char)
    (h : ∀ c ∈ cs, c ≠ '\\') (hp : prev ≠ some '\\') :
    prevAfter cs prev ≠ some '\\' := by
  unfold prevAfter
  cases hl : cs.getLast? with
  | none => exact hp
  | some c =>
    have hc : c ∈ cs.getLast? := by rw [hl]; rfl
    obtain ⟨hne, hg⟩ := List.mem_getLast?_eq_getLast hc
    have hm : c ∈ cs := hg ▸ List.getLast_mem hne
    simp
    exact h c hm

theorem extractStep_inQuote (full : Str) (i : Nat) (prev : Option Char)
    (K : List Str) (a o : Int) (s0 : Nat) (key0 : Str) (ch : Char)
    (h : qinert ch = true) :
    extractStep full ⟨K, true, a, o, s0, key0⟩ i prev ch = ⟨K, true, a, o, s0, key0⟩ := by
  simp [qinert] at h
  simp [extractStep, h]

theorem extractStep_inert (full : Str) (i : Nat) (prev : Option Char)
    (K : List Str) (s0 : Nat) (key0 : Str) (ch : Char)
    (h : inert ch = true) :
    extractStep full ⟨K, false, 0, 0, s0, key0⟩ i prev ch = ⟨K, false, 0, 0, s0, key0⟩ := by
  simp [inert] at h
  simp [extractStep, h]

theorem extractStep_openQuote (full : Str) (i : Nat) (prev : Option Char)
    (K : List Str) (s0 : Nat) (key0 : Str) (hp : prev ≠ some '\\') :
    extractStep full ⟨K, false, 0, 0, s0, key0⟩ i prev '"' = ⟨K, true, 0, 0, i + 1, key0⟩ := by
  simp +decide [extractStep, hp]

theorem extractStep_closeQuote (full : Str) (i : Nat) (prev : Option Char)
    (K : List Str) (s0 : Nat) (key0 : Str) (hp : prev ≠ some '\\') :
    extractStep full ⟨K, true, 0, 0, s0, key0⟩ i prev '"'
      = ⟨K, false, 0, 0, s0, (full.drop s0).take (i - s0)⟩ := by
  simp +decide [extractStep, hp]

theorem extractStep_colon (full : Str) (i : Nat) (prev : Option Char)
    (K : List Str) (s0 : Nat) (key0 : Str) (hk : key0 ≠ []) :
    extractStep full ⟨K, false, 0, 0, s0, key0⟩ i prev ':'
      = ⟨K ++ [key0], false, 0, 0, s0, []⟩ := by
  simp +decide [extractStep, hk]

theorem extractStep_comma (full : Str) (i : Nat) (prev : Option Char)
    (K : List Str) (s0 : Nat) (key0 : Str) :
    extractStep full ⟨K, false, 0, 0, s0, key0⟩ i prev ','
      = ⟨K, false, 0, 0, s0, []⟩ := by
  simp +decide [extractStep]

theorem extractLoop_qrun : ∀ (cs : Str) (full rest : Str) (i : Nat) (prev : Option Char)
    (K : List Str) (a o : Int) (s0 : Nat) (key0 : Str),
    (∀ c ∈ cs, qinert c = true) →
    extractLoop full (cs ++ rest) i prev ⟨K, true, a, o, s0, key0⟩
      = extractLoop full rest (i + cs.length) (prevAfter cs prev) ⟨K, true, a, o, s0, key0⟩ := by
  intro cs
  induction cs with
  | nil => intro full rest i prev K a o s0 key0 _; simp [prevAfter]
  | cons c cs ih =>
    intro full rest i prev K a o s0 key0 h
    rw [List.cons_append, extractLoop,
      extractStep_inQuote full i prev K a o s0 key0 c (h c (by simp)),
      ih full rest (i + 1) (some c) K a o s0 key0 (fun d hd => h d (by simp [hd])),
      prevAfter_cons]
    have harith : i + 1 + cs.length = i + (c :: cs).length := by
      simp only [List.length_cons]
      omega
    rw [harith]

theorem extractLoop_run : ∀ (cs : Str) (full rest : Str) (i : Nat) (prev : Option Char)
    (K : List Str) (s0 : Nat) (key0 : Str),
    (∀ c ∈ cs, inert c = true) →
    extractLoop full (cs ++ rest) i prev ⟨K, false, 0, 0, s0, key0⟩
      = extractLoop full rest (i + cs.length) (prevAfter cs prev) ⟨K, false, 0, 0, s0, key0⟩ := by
  intro cs
  induction cs with
  | nil => intro full rest i prev K s0 key0 _; simp [prevAfter]
  | cons c cs ih =>
    intro full rest i prev K s0 key0 h
    rw [List.cons_append, extractLoop,
      extractStep_inert full i prev K s0 key0 c (h c (by simp)),
      ih full rest (i + 1) (some c) K s0 key0 (fun d hd => h d (by simp [hd])),
      prevAfter_cons]
    have harith : i + 1 + cs.length = i + (c :: cs).length := by
      simp only [List.length_cons]
      omega
    rw [harith]

theorem drop_of_append (full A R : Str) (i : Nat) (h : full.drop i = A ++ R) :
    full.drop (i + A.length) = R := by
  have h2 : full.drop (i + A.length) = (full.drop i).drop A.length := by
    rw [List.drop_drop]
  rw [h2, h, List.drop_left]

theorem take_of_append (full A R : Str) (i : Nat) (h : full.drop i = A ++ R) :
    (full.drop i).take A.length = A := by
  rw [h, List.take_left]

theorem digits_inert : ∀ c ∈ "0123456789".data, inert c = true := by decide

theorem intChars_inert (n : Int) : ∀ c ∈ intChars n, inert c = true := by
  intro c hc
  unfold intChars at hc
  split at hc
  · cases hc with
    | head => decide
    | tail _ hm => exact digits_inert c (natDigits_mem_digits n.natAbs c hm)
  · exact digits_inert c (natDigits_mem_digits n.natAbs c hc)

theorem renderLit_true_inert : ∀ c ∈ "true".data, inert c = true := by decide

theorem renderLit_false_inert : ∀ c ∈ "false".data, inert c = true := by decide

theorem renderLit_null_inert : ∀ c ∈ "null".data, inert c = true := by decide

/-- Scanning the rendered text of a flat literal value from an unquoted
zero-counter state consumes exactly that text, leaves the accumulated keys
and the scanner mode unchanged, and keeps the previous-character tracker
away from a backslash. -/
theorem scanValue (v : JLit) (hv : flatLit v = true) (full T : Str) (i : Nat)
    (prev : Option Char) (K : List Str) (s0 : Nat)
    (hp : prev ≠ some '\\') :
    ∃ prev' s' key',
      (extractLoop full (renderLit v ++ T) i prev ⟨K, false, 0, 0, s0, []⟩
        = extractLoop full T (i + (renderLit v).length) prev' ⟨K, false, 0, 0, s', key'⟩
      ∧ prev' ≠ some '\\') := by
  have inertCase : (∀ c ∈ renderLit v, inert c = true) →
      ∃ prev' s' key',
        (extractLoop full (renderLit v ++ T) i prev ⟨K, false, 0, 0, s0, []⟩
          = extractLoop full T (i + (renderLit v).length) prev' ⟨K, false, 0, 0, s', key'⟩
        ∧ prev' ≠ some '\\') := by
    intro hin
    refine ⟨prevAfter (renderLit v) prev, s0, [], ?_, ?_⟩
    · exact extractLoop_run (renderLit v) full T i prev K s0 [] hin
    · exact prevAfter_ne_bs _ prev (fun c hc => inert_ne_bs c (hin c hc)) hp
  cases v with
  | jInt n =>
    exact inertCase (by simp only [renderLit]; exact intChars_inert n)
  | jFlt m p => exact absurd hv (by simp [flatLit])
  | jBool b =>
    cases b with
    | true => exact inertCase (by decide)
    | false => exact inertCase (by decide)
  | jNull => exact inertCase (by simp only [renderLit]; exact renderLit_null_inert)
  | jArr xs => exact absurd hv (by simp [flatLit])
  | jObj ms => exact absurd hv (by simp [flatLit])
  | jStr s =>
    simp only [flatLit, List.all_eq_true] at hv
    have hsq : ∀ c ∈ s, qinert c = true := fun c hc => plainCh_qinert c (hv c hc)
    have hsb : ∀ c ∈ s, c ≠ '\\' := fun c hc => qinert_ne_bs c (hsq c hc)
    have hstep : renderLit (.jStr s) ++ T = '"' :: (s ++ ('"' :: T)) := by
      simp [renderLit]
    rw [hstep, extractLoop, extractStep_openQuote full i prev K s0 [] hp]
    have hsplit : s ++ ('"' :: T) = s ++ (['"'] ++ T) := by simp
    rw [hsplit, extractLoop_qrun s full (['"'] ++ T) (i + 1) (some '"') K 0 0 (i + 1) [] hsq]
    have hpq : prevAfter s (some '"') ≠ some '\\' :=
      prevAfter_ne_bs s (some '"') hsb (by simp)
    rw [List.singleton_append, extractLoop,
      extractStep_closeQuote full (i + 1 + s.length) (prevAfter s (some '"')) K (i + 1) [] hpq]
    refine ⟨some '"', i + 1,
      (full.drop (i + 1)).take (i + 1 + s.length - (i + 1)), ?_, by simp⟩
    have harith : i + 1 + s.length + 1 = i + (renderLit (.jStr s)).length := by
      simp [renderLit]
      omega
    rw [harith]

/-- Scanning one rendered member `"k":v` from an unquoted zero-counter
state appends exactly `k` to the accumulated key list and consumes the
member's text. -/
theorem scanMemberPrefix (k : Str) (v : JLit) (T full : Str) (i : Nat)
    (prev : Option Char) (K : List Str) (s0 : Nat) (key0 : Str)
    (hk : k ≠ []) (hkp : k.all plainCh = true) (hv : flatLit v = true)
    (hfull : full.drop i = '"' :: (k ++ '"' :: ':' :: (renderLit v ++ T)))
    (hp : prev ≠ some '\\') :
    ∃ prev' s' key',
      (extractLoop full ('"' :: (k ++ '"' :: ':' :: (renderLit v ++ T))) i prev
          ⟨K, false, 0, 0, s0, key0⟩
        = extractLoop full T (i + k.length + 3 + (renderLit v).length) prev'
          ⟨K ++ [k], false, 0, 0, s', key'⟩
      ∧ prev' ≠ some '\\') := by
  simp only [List.all_eq_true] at hkp
  have hkq : ∀ c ∈ k, qinert c = true := fun c hc => plainCh_qinert c (hkp c hc)
  have hkb : ∀ c ∈ k, c ≠ '\\' := fun c hc => qinert_ne_bs c (hkq c hc)
  rw [extractLoop, extractStep_openQuote full i prev K s0 key0 hp]
  have hsp1 : k ++ '"' :: ':' :: (renderLit v ++ T)
      = k ++ (['"'] ++ (':' :: (renderLit v ++ T))) := by simp
  rw [hsp1, extractLoop_qrun k full (['"'] ++ (':' :: (renderLit v ++ T)))
    (i + 1) (some '"') K 0 0 (i + 1) key0 hkq]
  have hpq : prevAfter k (some '"') ≠ some '\\' :=
    prevAfter_ne_bs k (some '"') hkb (by simp)
  rw [List.singleton_append, extractLoop,
    extractStep_closeQuote full (i + 1 + k.length) (prevAfter k (some '"')) K (i + 1) key0 hpq]
  have hkslice : (full.drop (i + 1)).take (i + 1 + k.length - (i + 1)) = k := by
    have h1 : full.drop (i + (['"'] : Str).length)
        = k ++ ('"' :: ':' :: (renderLit v ++ T)) := by
      apply drop_of_append full ['"'] (k ++ ('"' :: ':' :: (renderLit v ++ T))) i
      simpa using hfull
    have h2 : i + 1 + k.length - (i + 1) = k.length := by omega
    have h3 : full.drop (i + 1) = k ++ ('"' :: ':' :: (renderLit v ++ T)) := by
      simpa using h1
    rw [h2]
    exact take_of_append full k ('"' :: ':' :: (renderLit v ++ T)) (i + 1) h3
  rw [hkslice, extractLoop,
    extractStep_colon full (i + 1 + k.length + 1) (some '"') K (i + 1) k hk]
  obtain ⟨prev', s', key', heq, hprev'⟩ :=
    scanValue v hv full T (i + 1 + k.length + 1 + 1) (some ':') (K ++ [k]) (i + 1) (by simp)
  refine ⟨prev', s', key', ?_, hprev'⟩
  rw [heq]
  have harith : i + 1 + k.length + 1 + 1 + (renderLit v).length
      = i + k.length + 3 + (renderLit v).length := by omega
  rw [harith]

/-- The scanner run over a whole rendered member list appends exactly the
source key order. -/
theorem scanMembers : ∀ (ms : List (Str × JLit)) (full : Str) (i : Nat)
    (prev : Option Char) (K : List Str) (s0 : Nat) (key0 : Str),
    (∀ p ∈ ms, p.1 ≠ [] ∧ p.1.all plainCh = true ∧ flatLit p.2 = true) →
    full.drop i = renderMembers ms →
    prev ≠ some '\\' →
    (extractLoop full (renderMembers ms) i prev ⟨K, false, 0, 0, s0, key0⟩).keys
      = K ++ ms.map Prod.fst := by
  intro ms
  induction ms with
  | nil => intro full i prev K s0 key0 _ _ _; simp [renderMembers, extractLoop]
  | cons p rest ih =>
    obtain ⟨k, v⟩ := p
    intro full i prev K s0 key0 h hfull hp
    obtain ⟨hk, hkp, hv⟩ := h (k, v) (by simp)
    cases rest with
    | nil =>
      have hsh : renderMembers [(k, v)] = '"' :: (k ++ '"' :: ':' :: (renderLit v ++ [])) := by
        simp [renderMembers]
      rw [hsh] at hfull ⊢
      obtain ⟨prev', s', key', heq, -⟩ :=
        scanMemberPrefix k v [] full i prev K s0 key0 hk hkp hv hfull hp
      rw [heq]
      simp [extractLoop]
    | cons q rs =>
      have hsh : renderMembers ((k, v) :: q :: rs)
          = '"' :: (k ++ '"' :: ':' :: (renderLit v ++ (',' :: renderMembers (q :: rs)))) := by
        simp [renderMembers]
      rw [hsh] at hfull ⊢
      obtain ⟨prev', s', key', heq, -⟩ :=
        scanMemberPrefix k v (',' :: renderMembers (q :: rs)) full i prev K s0 key0
          hk hkp hv hfull hp
      rw [heq, extractLoop,
        extractStep_comma full (i + k.length + 3 + (renderLit v).length) prev'
          (K ++ [k]) s' key']
      have hfull2 : full.drop (i + k.length + 3 + (renderLit v).length + 1)
          = renderMembers (q :: rs) := by
        have hA : full.drop i
            = (('"' :: (k ++ '"' :: ':' :: (renderLit v ++ [','])))
              ++ renderMembers (q :: rs)) := by
          rw [hfull]
          simp
        have hd := drop_of_append full ('"' :: (k ++ '"' :: ':' :: (renderLit v ++ [','])))
          (renderMembers (q :: rs)) i hA
        have hlen : i + ('"' :: (k ++ '"' :: ':' :: (renderLit v ++ [',']))).length
            = i + k.length + 3 + (renderLit v).length + 1 := by
          simp [List.length_cons, List.length_append]
          omega
        rw [hlen] at hd
        exact hd
      rw [ih full (i + k.length + 3 + (renderLit v).length + 1) (some ',')
        (K ++ [k]) s' [] (fun p hp2 => h p (by simp [hp2])) hfull2 (by simp)]
      simp

theorem digits_noWS : ∀ c ∈ "0123456789".data, noWS c = true := by decide

theorem intChars_noWS (n : Int) : ∀ c ∈ intChars n, noWS c = true := by
  intro c hc
  unfold intChars at hc
  split at hc
  · cases hc with
    | head => decide
    | tail _ hm => exact digits_noWS c (natDigits_mem_digits n.natAbs c hm)
  · exact digits_noWS c (natDigits_mem_digits n.natAbs c hc)

theorem renderLit_noWS (v : JLit) (hv : flatLit v = true) :
    ∀ c ∈ renderLit v, noWS c = true := by
  cases v with
  | jInt n => exact fun c hc => intChars_noWS n c hc
  | jFlt m p => exact absurd hv (by simp [flatLit])
  | jBool b => cases b with
    | true => decide
    | false => decide
  | jNull => decide
  | jArr xs => exact absurd hv (by simp [flatLit])
  | jObj ms => exact absurd hv (by simp [flatLit])
  | jStr s =>
    simp only [flatLit, List.all_eq_true] at hv
    intro c hc
    simp only [renderLit, List.mem_cons, List.mem_append] at hc
    rcases hc with hc | hc | hc
    · subst hc; decide
    · exact plainCh_noWS c (hv c hc)
    · simp at hc; subst hc; decide

theorem renderMembers_noWS : ∀ ms : List (Str × JLit),
    (∀ p ∈ ms, p.1 ≠ [] ∧ p.1.all plainCh = true ∧ flatLit p.2 = true) →
    ∀ c ∈ renderMembers ms, noWS c = true := by
  intro ms
  induction ms with
  | nil => intro _ c hc; simp [renderMembers] at hc
  | cons p rest ih =>
    obtain ⟨k, v⟩ := p
    intro h c hc
    obtain ⟨-, hkp, hv⟩ := h (k, v) (by simp)
    simp only [List.all_eq_true] at hkp
    have hmem : ∀ c ∈ ('"' :: (k ++ '"' :: ':' :: renderLit v) : Str), noWS c = true := by
      intro d hd
      simp only [List.mem_cons, List.mem_append] at hd
      rcases hd with hd | hd | hd
      · subst hd; decide
      · exact plainCh_noWS d (hkp d hd)
      · rcases hd with hd | hd | hd
        · subst hd; decide
        · subst hd; decide
        · exact renderLit_noWS v hv d hd
    cases rest with
    | nil =>
      simp only [renderMembers] at hc
      exact hmem c (by simpa using hc)
    | cons q rs =>
      simp only [renderMembers, List.mem_append, List.mem_cons] at hc
      rcases hc with hc | hc | hc
      · exact hmem c (by simpa using hc)
      · subst hc; decide
      · exact ih (fun p hp => h p (by simp [hp])) c hc

theorem stripWS_id (s : Str) (h : ∀ c ∈ s, noWS c = true) : stripWS s = s := by
  unfold stripWS
  apply List.filter_eq_self.mpr
  intro a ha
  exact h a ha

/-- The key scanner recovers exactly the textual key order of a rendered
flat object. -/
theorem extractJSONKeys_renderDoc (ms : List (Str × JLit))
    (h : ∀ p ∈ ms, p.1 ≠ [] ∧ p.1.all plainCh = true ∧ flatLit p.2 = true) :
    extractJSONKeys (renderDoc ms) = ms.map Prod.fst := by
  have hdoc : renderDoc ms = obrace :: (renderMembers ms ++ [cbrace]) := by
    simp [renderDoc, renderLit]
  have hws : stripWS (renderDoc ms) = renderDoc ms := by
    apply stripWS_id
    rw [hdoc]
    intro c hc
    simp only [List.mem_cons, List.mem_append] at hc
    rcases hc with hc | hc | hc
    · subst hc; decide
    · exact renderMembers_noWS ms h c hc
    · simp at hc; subst hc; decide
  unfold extractJSONKeys
  rw [hws, hdoc]
  have hlast : (obrace :: (renderMembers ms ++ [cbrace])).getLast? = some cbrace := by
    rw [← List.cons_append, List.getLast?_concat]
  have hdl : (renderMembers ms ++ [cbrace]).dropLast = renderMembers ms :=
    List.dropLast_concat
  simp only [hlast, hdl]
  rw [if_pos (by simp)]
  have hinit : extractInit = (⟨[], false, 0, 0, 0, []⟩ : JKeySt) := rfl
  rw [hinit, scanMembers ms (renderMembers ms) 0 none [] 0 []
    h (by simp) (by simp)]
  simp

theorem mapInsert_append : ∀ (acc : List (Str × GoVal)) (k : Str) (v : GoVal),
    (∀ p ∈ acc, p.1 ≠ k) → mapInsert acc k v = acc ++ [(k, v)] := by
  intro acc
  induction acc with
  | nil => intro k v _; rfl
  | cons q rest ih =>
    intro k v h
    obtain ⟨k1, v1⟩ := q
    have hne : k1 ≠ k := h (k1, v1) (by simp)
    simp only [mapInsert, if_neg hne, List.cons_append]
    rw [ih k v (fun p hp => h p (by simp [hp]))]

/-- Distinct source keys decode to the plain association list: every
`mapInsert` is a fresh append. -/
theorem decodeMembers_flat : ∀ (ms : List (Str × JLit)) (acc : List (Str × GoVal)),
    (ms.map Prod.fst).Nodup →
    (∀ p ∈ acc, p.1 ∉ ms.map Prod.fst) →
    decodeMembers ms acc = acc ++ ms.map (fun p => (p.1, decodeLit p.2)) := by
  intro ms
  induction ms with
  | nil => intro acc _ _; simp [decodeMembers]
  | cons p rest ih =>
    obtain ⟨k, v⟩ := p
    intro acc hnd hacc
    simp only [List.map_cons, List.nodup_cons] at hnd
    rw [decodeMembers,
      mapInsert_append acc k (decodeLit v)
        (fun q hq => fun he => hacc q hq (by rw [he]; exact List.mem_cons_self k _)),
      ih (acc ++ [(k, decodeLit v)]) hnd.2 ?disj]
    · simp
    case disj =>
      intro q hq
      simp only [List.mem_append, List.mem_singleton] at hq
      rcases hq with hq | hq
      · exact fun hm => hacc q hq (List.mem_cons_of_mem k hm)
      · subst hq
        exact hnd.1

theorem mapLookup_aligned : ∀ (ms : List (Str × JLit)),
    (ms.map Prod.fst).Nodup →
    ∀ p ∈ ms, mapLookup (ms.map fun q => (q.1, decodeLit q.2)) p.1 = some (decodeLit p.2) := by
  intro ms
  induction ms with
  | nil => intro _ p hp; simp at hp
  | cons q rest ih =>
    obtain ⟨k, v⟩ := q
    intro hnd p hp
    simp only [List.map_cons, List.nodup_cons] at hnd
    rcases List.mem_cons.mp hp with hp | hp
    · subst hp
      simp [mapLookup]
    · have hne : k ≠ p.1 := by
        intro he
        exact hnd.1 (by rw [he]; exact List.mem_map_of_mem Prod.fst hp)
      simp only [List.map_cons, mapLookup, if_neg hne]
      exact ih hnd.2 p hp

theorem fields_eq_gen : ∀ (ms : List (Str × JLit)) (data : List (Str × GoVal)),
    (∀ p ∈ ms, mapLookup data p.1 = some (decodeLit p.2)) →
    ((ms.map Prod.fst).filterMap fun k =>
      (mapLookup data k).map fun v => '"' :: (k ++ '"' :: ':' :: custTopVal v))
      = ms.map fun p => '"' :: (p.1 ++ '"' :: ':' :: custTopVal (decodeLit p.2)) := by
  intro ms
  induction ms with
  | nil => intro data _; rfl
  | cons p rest ih =>
    intro data h
    simp only [List.map_cons, List.filterMap_cons, h p (List.mem_cons_self p rest),
      Option.map_some']
    rw [ih data (fun q hq => h q (List.mem_cons_of_mem p hq))]

theorem escJSON_plain : ∀ s : Str, s.all plainCh = true → escJSON s = s := by
  intro s
  induction s with
  | nil => intro _; rfl
  | cons c cs ih =>
    intro h
    simp only [List.all_cons, Bool.and_eq_true] at h
    have hq : c ≠ '"' := by
      have h1 := h.1
      simp [plainCh] at h1
      tauto
    have hb : c ≠ '\\' := by
      have h1 := h.1
      simp [plainCh] at h1
      tauto
    have htail : escJSON cs = cs := ih h.2
    simp only [escJSON, List.flatMap_cons, if_neg hb, if_neg hq]
    simp only [escJSON] at htail
    rw [htail]
    rfl

/-- Top-level custom serialization of a decoded flat literal reproduces the
source literal text. -/
theorem custTopVal_flat (v : JLit) (hv : flatLit v = true) :
    custTopVal (decodeLit v) = renderLit v := by
  cases v with
  | jInt n =>
    simp only [flatLit, decide_eq_true_eq] at hv
    simp [decodeLit, hv, custTopVal, renderLit]
  | jFlt m p => exact absurd hv (by simp [flatLit])
  | jBool b => cases b <;> rfl
  | jNull => rfl
  | jStr s =>
    simp only [flatLit] at hv
    simp [decodeLit, custTopVal, renderLit, escJSON_plain s hv]
  | jArr xs => exact absurd hv (by simp [flatLit])
  | jObj ms => exact absurd hv (by simp [flatLit])

theorem joinComma_cons₂ (x y : Str) (l : List Str) :
    joinComma (x :: y :: l) = x ++ ',' :: joinComma (y :: l) := by
  simp [joinComma, List.intercalate, List.intersperse]

theorem joinComma_singleton (x : Str) : joinComma [x] = x := by
  simp [joinComma, List.intercalate]

theorem joinComma_renderMembers : ∀ ms : List (Str × JLit),
    joinComma (ms.map fun p => '"' :: (p.1 ++ '"' :: ':' :: renderLit p.2))
      = renderMembers ms := by
  intro ms
  induction ms with
  | nil => rfl
  | cons p rest ih =>
    obtain ⟨k, v⟩ := p
    cases rest with
    | nil => simp [joinComma_singleton, renderMembers]
    | cons q rs =>
      simp only [List.map_cons] at ih ⊢
      rw [joinComma_cons₂, ih]
      simp [renderMembers]

/-- C1 (amended): for flat JSON objects whose members carry distinct
nonempty plain keys and in-range integer, boolean, null or plain string
values, the zero-mutation round trip (key capture by `extractJSONKeys`,
decode, re-serialize with `customJSONMarshal`) reproduces the source text
exactly — in particular the top-level textual key order.  The guarantee
does not extend beyond these hypotheses (see the counterexample):
whitespace inside a quoted key is deleted by the key extractor and the
member vanishes from the output, nested objects are re-serialized with
sorted keys, and float literals are reprinted in shortest form. -/
theorem c1_flat_roundtrip (ms : List (Str × JLit))
    (h : ∀ p ∈ ms, p.1 ≠ [] ∧ p.1.all plainCh = true ∧ flatLit p.2 = true)
    (hnd : (ms.map Prod.fst).Nodup) :
    roundTripJSON ms = renderDoc ms := by
  unfold roundTripJSON
  rw [extractJSONKeys_renderDoc ms h]
  have hdec : decodeMembers ms [] = ms.map (fun p => (p.1, decodeLit p.2)) := by
    have hd := decodeMembers_flat ms [] hnd (by intro p hp; exact absurd hp (List.not_mem_nil p))
    simpa using hd
  rw [hdec]
  cases ms with
  | nil => rfl
  | cons p rest =>
    simp only [customJSONMarshal]
    have hko : ¬((p :: rest).map Prod.fst = []) := by simp
    rw [if_neg hko,
      fields_eq_gen (p :: rest) ((p :: rest).map fun q => (q.1, decodeLit q.2))
        (mapLookup_aligned (p :: rest) hnd)]
    have hmc : ((p :: rest).map fun q => '"' :: (q.1 ++ '"' :: ':' :: custTopVal (decodeLit q.2)))
        = ((p :: rest).map fun q => '"' :: (q.1 ++ '"' :: ':' :: renderLit q.2)) := by
      apply List.map_congr_left
      intro q hq
      rw [custTopVal_flat q.2 (h q hq).2.2]
    rw [hmc, joinComma_renderMembers]
    simp [renderDoc, renderLit]

/-- Witness for C1: a concrete four-member flat object round-trips to its
exact source text. -/
theorem c1_flat_roundtrip_witness :
    roundTripJSON [("id".data, JLit.jInt 7), ("name".data, JLit.jStr "Tom".data),
        ("ok".data, JLit.jBool true), ("note".data, JLit.jNull)]
      = renderDoc [("id".data, JLit.jInt 7), ("name".data, JLit.jStr "Tom".data),
        ("ok".data, JLit.jBool true), ("note".data, JLit.jNull)] :=
  c1_flat_roundtrip
    [("id".data, JLit.jInt 7), ("name".data, JLit.jStr "Tom".data),
     ("ok".data, JLit.jBool true), ("note".data, JLit.jNull)]
    (by decide) (by decide)
